import Mathlib

/-!
Shallow embedding of `src/audio_output/mixer.c` (VLC audio output mixer core):
`aout_MixerNew` and the per-tick assembly function `MixBuffer`, together with
the data model they operate on (input FIFOs, the output FIFO date accumulator,
per-input byte cursors).

Modelling conventions:
* `mtime_t` PTS/length values and byte offsets are unbounded `Int` (the C code
  uses 64-bit signed arithmetic and none of the verified claims hinges on
  overflow).
* C pointers into buffer payloads are abstract integer addresses: a buffer
  carries `p_buffer` (start address of its payload) and `i_buffer_size`
  (payload byte count); the per-input cursor `mixer.begin` is an
  `Option Int` address (`none` = `NULL`).
* Buffer queues are Lean lists (head = `p_first`); freeing a buffer is
  removal from the list.  The C tail pointer-to-pointer (`pp_last`) has no
  semantic content in the list model (rewinding it is a no-op here).
* `mdate()` is a parameter `now` fixed for one call, and the success of
  `block_Alloc` is a parameter `alloc_ok`.
* The pluggable mixing kernel (`p_mixer->mix`) is external to the repository;
  the model stops right before invoking it, so a returned `Ready out` reflects
  the state as handed to the kernel.
-/

/-! ### General helper lemmas -/

/-! ### Claim theorems -/

/-- The slice of `audio_sample_format_t` used by the mixer, plus the
outcome of the `AOUT_FMT_NON_LINEAR` test on it. -/
structure audio_format_t where
  i_bytes_per_frame : Int
  i_frame_length : Int
  i_rate : Int
  non_linear : Bool
deriving DecidableEq

/-- `aout_buffer_t`: a queued audio buffer (pts, length in microseconds,
sample count, abstract payload start address and byte size). -/
structure aout_buffer_t where
  i_pts : Int
  i_length : Int
  i_nb_samples : Nat
  p_buffer : Int
  i_buffer_size : Int
deriving DecidableEq

/-- `aout_input_t` restricted to what `mixer.c` touches: the error/pause
flags, the input FIFO (`mixer.fifo`), the byte cursor (`mixer.begin`) and
the transient `mixer.is_invalid` flag. -/
structure aout_input_t where
  b_error : Bool
  b_paused : Bool
  fifo : List aout_buffer_t
  begin : Option Int
  is_invalid : Bool
deriving DecidableEq

/-- Modelled from the spec: the host clock library's `date_t` accumulator
(`src/misc/mtime.c` is not part of this repository).  It holds a date in
microseconds at a rational sample rate `i_divider_num / i_divider_den` and a
sub-microsecond remainder so that advancing it by whole samples stays
sample-accurate. -/
structure date_t where
  date : Int
  i_divider_num : Int
  i_divider_den : Int
  i_remainder : Int
deriving DecidableEq

/-- Modelled from the spec: reading the date accumulator. -/
def date_Get (d : date_t) : Int := d.date

/-- Modelled from the spec: setting the date accumulator to a fixed date
clears the sub-microsecond remainder. -/
def date_Set (d : date_t) (v : Int) : date_t :=
  { d with date := v, i_remainder := 0 }

/-- Modelled from the spec: advancing the date accumulator by a whole number
of samples at rate `i_divider_num / i_divider_den`, carrying the remainder
(Bresenham-style) for sample accuracy. -/
def date_Increment (d : date_t) (samples : Nat) : date_t :=
  let dividend : Int := (samples : Int) * 1000000 * d.i_divider_den
  let d1 := { d with date := d.date + Int.tdiv dividend d.i_divider_num,
                     i_remainder := d.i_remainder + Int.tmod dividend d.i_divider_num }
  if d1.i_remainder ≥ d.i_divider_num then
    { d1 with date := d1.date + 1, i_remainder := d1.i_remainder - d.i_divider_num }
  else d1

/-- The output FIFO: its queue of produced blocks and its `end_date`
accumulator (the PTS of the next sample slot the output expects). -/
structure aout_fifo_t where
  buffers : List aout_buffer_t
  end_date : date_t
deriving DecidableEq

/-- Modelled from the spec: `aout_FifoSet` (not in src/) drains and frees the
FIFO and resets its date accumulator to the given date. -/
def aout_FifoSet (f : aout_fifo_t) (v : Int) : aout_fifo_t :=
  { buffers := [], end_date := date_Set f.end_date v }

/-- Modelled from the spec: `aout_OutputPlay` (not in src/) hands the block
downstream; afterwards the output FIFO's `end_date` reads the PTS of the next
sample slot, i.e. the end of the pushed block. -/
def aout_OutputPlay (f : aout_fifo_t) (b : aout_buffer_t) : aout_fifo_t :=
  { buffers := f.buffers ++ [b], end_date := date_Set f.end_date (b.i_pts + b.i_length) }

/-- `aout_mixer_t` restricted to what the verified code reads: the mixer
format and the `b_alloc` flag (`allocates_output`). -/
structure aout_mixer_t where
  fmt : audio_format_t
  b_alloc : Bool
deriving DecidableEq

/-- `aout_instance_t` restricted to what `mixer.c` touches. -/
structure aout_instance_t where
  p_mixer : Option aout_mixer_t
  pp_inputs : List aout_input_t
  output_fifo : aout_fifo_t
  i_nb_samples : Nat
  mixer_format : audio_format_t
deriving DecidableEq

/-- Result of one `MixBuffer` call: `-1` (not ready) or `0` with the
assembled output block as handed to the mixing kernel. -/
inductive MixResult where
  | NotReady
  | Ready (out : aout_buffer_t)
deriving DecidableEq

/-- Result of `aout_MixerNew`: `VLC_SUCCESS` or `VLC_EGENERIC` (the spec's
`NoKernel`). -/
inductive MixerNewResult where
  | success
  | egeneric
deriving DecidableEq

/-- `aout_MixerNew` (mixer.c:44-71).  `create_ok` models the success of
`vlc_object_create`, `module_ok` the success of `module_need`.  The read of
`p_aout->pp_inputs[0]` (line 56) is modelled by `head?`; a `none` result of
the whole function models the out-of-bounds dereference on a zero-input
`aout`.  The precondition `assert(!p_aout->p_mixer)` is a hypothesis of the
theorems, not of the definition. -/
def aout_MixerNew (create_ok module_ok : Bool) (a : aout_instance_t) :
    Option (aout_instance_t × MixerNewResult) :=
  if !create_ok then some (a, MixerNewResult.egeneric)
  else
    match a.pp_inputs.head? with
    | none => none
    | some _ =>
      if !module_ok then some (a, MixerNewResult.egeneric)
      else some ({ a with p_mixer := some { fmt := a.mixer_format, b_alloc := true } },
                 MixerNewResult.success)

/-- Step A of `MixBuffer` (lines 102-120): with no mixer attached, free every
buffer of every non-errored input's queue (the `begin` cursor is not
touched there). -/
def freeDetached (inputs : List aout_input_t) : List aout_input_t :=
  inputs.map (fun p => if p.b_error then p else { p with fifo := [] })

/-- The stale-drop loop of start-date discovery (lines 159-167): pop and free
head buffers whose `i_pts` is before `now`.  The Bool reports whether at
least one buffer was dropped (each drop also resets `mixer.begin`). -/
def dropStaleFifo (now : Int) : List aout_buffer_t → List aout_buffer_t × Bool
  | [] => ([], false)
  | b :: rest =>
    if b.i_pts < now then ((dropStaleFifo now rest).1, true)
    else (b :: rest, false)

/-- Start-date discovery (lines 146-187): scan inputs in order, skip errored
or paused ones, stale-drop each remaining queue, break on the first emptied
queue, and raise the candidate start date to each head PTS.  Returns the
updated inputs, the final `start_date`, the final `exact_start_date`, and
whether the loop was interrupted (`i < i_nb_inputs`). -/
def discoverLoop (now : Int) :
    Int → date_t → List aout_input_t → List aout_input_t × Int × date_t × Bool
  | start, ex, [] => ([], start, ex, false)
  | start, ex, p :: rest =>
    if p.b_error || p.b_paused then
      let t := discoverLoop now start ex rest
      (p :: t.1, t.2)
    else
      let d := dropStaleFifo now p.fifo
      let p1 := { p with fifo := d.1, begin := if d.2 then none else p.begin }
      match d.1 with
      | [] => (p1 :: rest, start, ex, true)
      | b :: _ =>
        let s1 := if start = 0 ∨ start < b.i_pts then b.i_pts else start
        let ex1 := if start = 0 ∨ start < b.i_pts then date_Set ex b.i_pts else ex
        let t := discoverLoop now s1 ex1 rest
        (p1 :: t.1, t.2)

/-- The past-packet drop loop of Step F (lines 215-226): pop and free head
buffers that end more than 1 microsecond before `start_date`.  The Bool
reports whether at least one buffer was dropped. -/
def pastDropFifo (start : Int) : List aout_buffer_t → List aout_buffer_t × Bool
  | [] => ([], false)
  | b :: rest =>
    if b.i_pts + b.i_length < start - 1 then ((pastDropFifo start rest).1, true)
    else (b :: rest, false)

/-- The past-packet drop applied to an input: buffers dropped from the queue
and, if any was dropped, `mixer.begin` reset to `NULL` (line 225). -/
def applyPastDrop (start : Int) (p : aout_input_t) : aout_input_t :=
  let r := pastDropFifo start p.fifo
  { p with fifo := r.1, begin := if r.2 then none else p.begin }

/-- The contiguity/sufficiency scan of Step F (lines 234-269) from the tail
of the current head segment.  `q0` is the whole queue from the current head,
`prev` the end date of the last examined buffer, and the last argument the
not-yet-examined tail.  On a hole (`prev ≠ i_pts`) every buffer strictly
before the hole is freed (the queue restarts at the hole buffer) and the
scan restarts there; the Bool reports whether a buffer reaching `endd` was
found along a contiguous run from the final head. -/
def coverScan (endd : Int) : List aout_buffer_t → Int → List aout_buffer_t →
    Bool × List aout_buffer_t
  | q0, _, [] => (false, q0)
  | q0, prev, b :: rest =>
    if prev ≠ b.i_pts then
      if b.i_pts + b.i_length ≥ endd then (true, b :: rest)
      else coverScan endd (b :: rest) (b.i_pts + b.i_length) rest
    else if b.i_pts + b.i_length ≥ endd then (true, q0)
    else coverScan endd q0 (b.i_pts + b.i_length) rest

/-- The whole "check that we have enough samples" loop (lines 234-270) on a
queue: returns whether a buffer covering `endd` is reachable from the (gap
trimmed) head, together with the resulting queue. -/
def ensureCoverage (endd : Int) : List aout_buffer_t → Bool × List aout_buffer_t
  | [] => (false, [])
  | b :: rest =>
    if b.i_pts + b.i_length ≥ endd then (true, b :: rest)
    else coverScan endd (b :: rest) (b.i_pts + b.i_length) rest

/-- Linear-format cursor reconciliation (lines 272-313) for an input whose
current head is `b`.  Returns the updated input and whether the
negative-offset branch fired (output clock reset, line 301-309). -/
def admitLinear (fmt : audio_format_t) (start : Int) (p : aout_input_t)
    (b : aout_buffer_t) : aout_input_t × Bool :=
  let i_buffer0 := Int.tdiv (Int.tdiv ((start - b.i_pts) * fmt.i_bytes_per_frame * fmt.i_rate)
                      fmt.i_frame_length) 1000000
  let begin0 := p.begin.getD b.p_buffer
  let mixer_nb_bytes := begin0 - b.p_buffer
  if ¬(i_buffer0 + fmt.i_bytes_per_frame > mixer_nb_bytes ∧
       i_buffer0 < fmt.i_bytes_per_frame + mixer_nb_bytes) then
    let i_buffer1 := Int.tdiv i_buffer0 fmt.i_bytes_per_frame * fmt.i_bytes_per_frame
    if i_buffer1 < 0 then ({ p with begin := some begin0 }, true)
    else ({ p with begin := some (b.p_buffer + i_buffer1) }, false)
  else ({ p with begin := some begin0 }, false)

/-- How the per-input admission pass left one input. -/
inductive AdmitOutcome where
  | ok
  | skip
  | halt
  | haltReset
deriving DecidableEq

/-- Step F for a single input (lines 201-313): recompute `is_invalid` (skip
when set), break on an empty queue, past-packet drop (break if emptied),
contiguity/sufficiency scan (break if insufficient), then linear cursor
reconciliation (`haltReset` when its negative branch resets the output
clock). -/
def admitInput (fmt : audio_format_t) (start endd : Int) (p : aout_input_t) :
    aout_input_t × AdmitOutcome :=
  if p.b_error || p.b_paused then ({ p with is_invalid := true }, AdmitOutcome.skip)
  else
    let p0 := { p with is_invalid := false }
    match p0.fifo with
    | [] => (p0, AdmitOutcome.halt)
    | _ :: _ =>
      let p1 := applyPastDrop start p0
      match p1.fifo with
      | [] => (p1, AdmitOutcome.halt)
      | _ :: _ =>
        let c := ensureCoverage endd p1.fifo
        let p2 := { p1 with fifo := c.2 }
        if c.1 = false then (p2, AdmitOutcome.halt)
        else
          match p2.fifo with
          | [] => (p2, AdmitOutcome.halt)
          | b :: _ =>
            if fmt.non_linear then (p2, AdmitOutcome.ok)
            else
              let r := admitLinear fmt start p2 b
              if r.2 then (r.1, AdmitOutcome.haltReset) else (r.1, AdmitOutcome.ok)

/-- The Step F loop over all inputs (lines 193-314), tracking the loop index
`i` and `i_first_input`.  Returns the updated inputs, the index at which the
loop stopped, the final `i_first_input`, and whether the stop was the
output-clock-resetting break. -/
def admitLoop (fmt : audio_format_t) (start endd : Int) :
    Nat → Nat → List aout_input_t → List aout_input_t × Nat × Nat × Bool
  | i, ifirst, [] => ([], i, ifirst, false)
  | i, ifirst, p :: rest =>
    let r := admitInput fmt start endd p
    match r.2 with
    | AdmitOutcome.skip =>
      let ifirst1 := if ifirst = i then ifirst + 1 else ifirst
      let t := admitLoop fmt start endd (i + 1) ifirst1 rest
      (r.1 :: t.1, t.2)
    | AdmitOutcome.ok =>
      let t := admitLoop fmt start endd (i + 1) ifirst rest
      (r.1 :: t.1, t.2)
    | AdmitOutcome.halt => (r.1 :: rest, i, ifirst, false)
    | AdmitOutcome.haltReset => (r.1 :: rest, i, ifirst, true)

/-- The fresh destination block of Step H when `b_alloc` is set
(lines 328-332): `block_Alloc` of the block byte size, with
`i_nb_samples` set to the output block size. -/
def freshBlock (fmt : audio_format_t) (nbs : Nat) : aout_buffer_t :=
  { i_pts := 0, i_length := 0, i_nb_samples := nbs, p_buffer := 0,
    i_buffer_size := Int.tdiv ((nbs : Int) * fmt.i_bytes_per_frame) fmt.i_frame_length }

/-- Steps E through I of `MixBuffer` (lines 188-350), entered with the
post-discovery inputs `inputs1`, output FIFO `fifo1`, date accumulator
`exact2` and start date `start2`: compute `end_date`, run the per-input
admission pass, bail out if it broke early or found no valid input, pick the
destination buffer, stamp it, and hand it to `aout_OutputPlay`. -/
def mixAdmitAndEmit (alloc_ok : Bool) (m : aout_mixer_t) (a : aout_instance_t)
    (fifo1 : aout_fifo_t) (inputs1 : List aout_input_t) (exact2 : date_t)
    (start2 : Int) : aout_instance_t × MixResult :=
  let exact3 := date_Increment exact2 a.i_nb_samples
  let endd := date_Get exact3
  let r := admitLoop m.fmt start2 endd 0 0 inputs1
  let inputs2 := r.1
  let iEnd := r.2.1
  let ifirst := r.2.2.1
  let rst := r.2.2.2
  let fifo2 := if rst then aout_FifoSet fifo1 0 else fifo1
  if iEnd < inputs1.length ∨ ifirst = inputs1.length then
    ({ a with pp_inputs := inputs2, output_fifo := fifo2 }, MixResult.NotReady)
  else
    match (if m.b_alloc then (if alloc_ok then some (freshBlock m.fmt a.i_nb_samples) else none)
           else (inputs2.get? ifirst).bind (fun p => p.fifo.head?)) with
    | none => ({ a with pp_inputs := inputs2, output_fifo := fifo2 }, MixResult.NotReady)
    | some ob =>
      let out := { ob with i_pts := start2, i_length := endd - start2 }
      let inputs3 :=
        if m.b_alloc then inputs2
        else
          match inputs2.get? ifirst with
          | some p =>
            match p.fifo with
            | _ :: t => inputs2.set ifirst { p with fifo := out :: t }
            | [] => inputs2
          | none => inputs2
      ({ a with pp_inputs := inputs3, output_fifo := aout_OutputPlay fifo2 out },
       MixResult.Ready out)

/-- `MixBuffer` (lines 96-351): one tick of the mixer core.  `now` is the
value of `mdate()` for this tick and `alloc_ok` the success of
`block_Alloc` in Step H. -/
def MixBuffer (now : Int) (alloc_ok : Bool) (a : aout_instance_t) :
    aout_instance_t × MixResult :=
  match a.p_mixer with
  | none => ({ a with pp_inputs := freeDetached a.pp_inputs }, MixResult.NotReady)
  | some m =>
    let start0 := date_Get a.output_fifo.end_date
    if start0 ≠ 0 ∧ start0 < now then
      let fifo1 := aout_FifoSet a.output_fifo 0
      let exact1 := date_Set a.output_fifo.end_date 0
      let d := discoverLoop now 0 exact1 a.pp_inputs
      if d.2.2.2 then ({ a with pp_inputs := d.1, output_fifo := fifo1 }, MixResult.NotReady)
      else mixAdmitAndEmit alloc_ok m a fifo1 d.1 d.2.2.1 d.2.1
    else if start0 = 0 then
      let d := discoverLoop now 0 a.output_fifo.end_date a.pp_inputs
      if d.2.2.2 then ({ a with pp_inputs := d.1 }, MixResult.NotReady)
      else mixAdmitAndEmit alloc_ok m a a.output_fifo d.1 d.2.2.1 d.2.1
    else
      mixAdmitAndEmit alloc_ok m a a.output_fifo a.pp_inputs a.output_fifo.end_date start0

/-- The spec-side notion for the sufficiency scan of Step F: the queue has a
contiguous run from its head (`prev.i_pts + prev.i_length = cur.i_pts` at
every link) reaching a buffer whose end is at or after `endd`. -/
def specChainCovers (endd : Int) : List aout_buffer_t → Bool
  | [] => false
  | b :: rest =>
    b.i_pts + b.i_length ≥ endd ||
      (match rest with
       | [] => false
       | c :: _ => decide (b.i_pts + b.i_length = c.i_pts) && specChainCovers endd rest)

/-- Helper for `specChainCovers`: the chain condition continued below a run
whose last buffer ends at `prev`. -/
def specChainCoversFrom (endd prev : Int) : List aout_buffer_t → Bool
  | [] => false
  | b :: rest =>
    decide (prev = b.i_pts) &&
      (decide (b.i_pts + b.i_length ≥ endd) || specChainCoversFrom endd (b.i_pts + b.i_length) rest)

def c2wIn1 : aout_input_t :=
  { b_error := true, b_paused := false,
    fifo := [{ i_pts := 5, i_length := 5, i_nb_samples := 1, p_buffer := 0, i_buffer_size := 4 }],
    begin := none, is_invalid := false }

def c2wIn2 : aout_input_t :=
  { b_error := false, b_paused := false,
    fifo := [{ i_pts := 9, i_length := 5, i_nb_samples := 1, p_buffer := 8, i_buffer_size := 4 }],
    begin := some 8, is_invalid := false }

def c2w : aout_instance_t :=
  { p_mixer := none, pp_inputs := [c2wIn1, c2wIn2],
    output_fifo := { buffers := [],
                     end_date := { date := 0, i_divider_num := 48000,
                                   i_divider_den := 1, i_remainder := 0 } },
    i_nb_samples := 1024,
    mixer_format := { i_bytes_per_frame := 4, i_frame_length := 1, i_rate := 48000,
                      non_linear := false } }

def c8w : aout_instance_t :=
  { p_mixer := none, pp_inputs := [c2wIn2],
    output_fifo := { buffers := [],
                     end_date := { date := 0, i_divider_num := 48000,
                                   i_divider_den := 1, i_remainder := 0 } },
    i_nb_samples := 1024,
    mixer_format := { i_bytes_per_frame := 4, i_frame_length := 1, i_rate := 48000,
                      non_linear := false } }

def c10w : aout_instance_t :=
  { p_mixer := none, pp_inputs := [],
    output_fifo := { buffers := [],
                     end_date := { date := 0, i_divider_num := 48000,
                                   i_divider_den := 1, i_remainder := 0 } },
    i_nb_samples := 1024,
    mixer_format := { i_bytes_per_frame := 4, i_frame_length := 1, i_rate := 48000,
                      non_linear := false } }

def c1Fmt : audio_format_t :=
  { i_bytes_per_frame := 4, i_frame_length := 1, i_rate := 48000, non_linear := false }

def c1Buf (pts addr : Int) : aout_buffer_t :=
  { i_pts := pts, i_length := 21333, i_nb_samples := 1024, p_buffer := addr,
    i_buffer_size := 4096 }

def c1w : aout_instance_t :=
  { p_mixer := some { fmt := c1Fmt, b_alloc := true },
    pp_inputs := [{ b_error := false, b_paused := false,
                    fifo := [c1Buf 100000 1000, c1Buf 121333 9192, c1Buf 142666 17384],
                    begin := none, is_invalid := false }],
    output_fifo := { buffers := [],
                     end_date := { date := 0, i_divider_num := 48000,
                                   i_divider_den := 1, i_remainder := 0 } },
    i_nb_samples := 1024,
    mixer_format := c1Fmt }

def c1A : aout_buffer_t :=
  { i_pts := 100000, i_length := 21333, i_nb_samples := 1024, p_buffer := 0,
    i_buffer_size := 4096 }

def c1B : aout_buffer_t :=
  { i_pts := 121333, i_length := 21333, i_nb_samples := 1024, p_buffer := 0,
    i_buffer_size := 4096 }

def c6buf : aout_buffer_t :=
  { i_pts := 0, i_length := 10, i_nb_samples := 1, p_buffer := 0, i_buffer_size := 4 }

def c6w : aout_instance_t :=
  { p_mixer := some { fmt := c1Fmt, b_alloc := true },
    pp_inputs := [{ b_error := false, b_paused := false, fifo := [c6buf],
                    begin := none, is_invalid := false }],
    output_fifo := { buffers := [],
                     end_date := { date := 100000, i_divider_num := 48000,
                                   i_divider_den := 1, i_remainder := 0 } },
    i_nb_samples := 1024,
    mixer_format := c1Fmt }

def c4Fmt : audio_format_t :=
  { i_bytes_per_frame := 4, i_frame_length := 1, i_rate := 1000000, non_linear := true }

def c4buf1 : aout_buffer_t :=
  { i_pts := 0, i_length := 10, i_nb_samples := 10, p_buffer := 100, i_buffer_size := 16 }

def c4buf2 : aout_buffer_t :=
  { i_pts := 20, i_length := 10, i_nb_samples := 10, p_buffer := 200, i_buffer_size := 16 }

def c4st : aout_instance_t :=
  { p_mixer := some { fmt := c4Fmt, b_alloc := true },
    pp_inputs := [{ b_error := false, b_paused := false, fifo := [c4buf1, c4buf2],
                    begin := some 42, is_invalid := false }],
    output_fifo := { buffers := [],
                     end_date := { date := 5, i_divider_num := 1000000,
                                   i_divider_den := 1, i_remainder := 0 } },
    i_nb_samples := 20,
    mixer_format := c4Fmt }

def c4w2 : aout_instance_t :=
  { p_mixer := some { fmt := c1Fmt, b_alloc := true },
    pp_inputs := [{ b_error := false, b_paused := false,
                    fifo := [{ i_pts := 99, i_length := 50, i_nb_samples := 2,
                               p_buffer := 0, i_buffer_size := 8 }],
                    begin := none, is_invalid := false }],
    output_fifo := { buffers := [],
                     end_date := { date := 100, i_divider_num := 48000,
                                   i_divider_den := 1, i_remainder := 0 } },
    i_nb_samples := 1024,
    mixer_format := c1Fmt }

/-- The claim's ideal in-head byte offset, written with the single division
`(start_date - head.pts) * bytes_per_frame * rate / (frame_length * 1000000)`
(the code divides by `i_frame_length` and `1000000` in two steps). -/
def idealOffset (fmt : audio_format_t) (start : Int) (b : aout_buffer_t) : Int :=
  Int.tdiv ((start - b.i_pts) * fmt.i_bytes_per_frame * fmt.i_rate)
    (fmt.i_frame_length * 1000000)

/-- The current cursor offset inside the head buffer's payload, with `begin`
defaulting to the payload start when `NULL`. -/
def cursorOffset (p : aout_input_t) (b : aout_buffer_t) : Int :=
  p.begin.getD b.p_buffer - b.p_buffer

/-- The ideal offset truncated (C division, toward zero) to a multiple of
`bytes_per_frame` (mixer.c lines 299-300). -/
def roundedOffset (fmt : audio_format_t) (start : Int) (b : aout_buffer_t) : Int :=
  Int.tdiv (idealOffset fmt start b) fmt.i_bytes_per_frame * fmt.i_bytes_per_frame

def c5Fmt : audio_format_t :=
  { i_bytes_per_frame := 4, i_frame_length := 1, i_rate := 250000, non_linear := false }

def c5buf : aout_buffer_t :=
  { i_pts := 103, i_length := 2000, i_nb_samples := 500, p_buffer := 500,
    i_buffer_size := 8000 }

def c5st : aout_instance_t :=
  { p_mixer := some { fmt := c5Fmt, b_alloc := true },
    pp_inputs := [{ b_error := false, b_paused := false, fifo := [c5buf],
                    begin := some 508, is_invalid := false }],
    output_fifo := { buffers := [],
                     end_date := { date := 100, i_divider_num := 250000,
                                   i_divider_den := 1, i_remainder := 0 } },
    i_nb_samples := 100,
    mixer_format := c5Fmt }

def c5out : aout_buffer_t :=
  { i_pts := 100, i_length := 400, i_nb_samples := 100, p_buffer := 0,
    i_buffer_size := 400 }

def c5w2 : aout_instance_t :=
  { p_mixer := some { fmt := c5Fmt, b_alloc := true },
    pp_inputs := [{ b_error := false, b_paused := false,
                    fifo := [{ i_pts := 200, i_length := 2000, i_nb_samples := 500,
                               p_buffer := 500, i_buffer_size := 8000 }],
                    begin := none, is_invalid := false }],
    output_fifo := { buffers := [],
                     end_date := { date := 100, i_divider_num := 250000,
                                   i_divider_den := 1, i_remainder := 0 } },
    i_nb_samples := 100,
    mixer_format := c5Fmt }

def c5w2post : aout_input_t :=
  { b_error := false, b_paused := false,
    fifo := [{ i_pts := 200, i_length := 2000, i_nb_samples := 500,
               p_buffer := 500, i_buffer_size := 8000 }],
    begin := some 500, is_invalid := false }

/-- What the discovery pass may do to one input: an errored or paused input
is untouched; otherwise only the queue may shrink, with `begin` reset to
`NULL` when a buffer was dropped. -/
def discoverRel (x p : aout_input_t) : Prop :=
  ((x.b_error || x.b_paused) = true → p = x) ∧
  (p.begin = x.begin ∨ p.begin = none) ∧
  p.b_error = x.b_error ∧ p.b_paused = x.b_paused ∧ p.is_invalid = x.is_invalid

/-- What the admission pass (and the head-stamping of Step H) may do to one
input: an errored or paused input keeps its queue and cursor (only
`is_invalid` may be written); any input's cursor is afterwards either
unchanged, `NULL`, or a non-negative offset from its current head's payload
start. -/
def admitRel (x p : aout_input_t) : Prop :=
  ((x.b_error || x.b_paused) = true → p = { x with is_invalid := p.is_invalid }) ∧
  (p.begin = x.begin ∨ p.begin = none ∨
    ∃ b k, p.fifo.head? = some b ∧ 0 ≤ k ∧ p.begin = some (b.p_buffer + k)) ∧
  p.b_error = x.b_error ∧ p.b_paused = x.b_paused

def c3Fmt : audio_format_t :=
  { i_bytes_per_frame := 4, i_frame_length := 1, i_rate := 1000000, non_linear := false }

def c3buf : aout_buffer_t :=
  { i_pts := 0, i_length := 1000000, i_nb_samples := 1000000, p_buffer := 1000,
    i_buffer_size := 4 }

def c3st : aout_instance_t :=
  { p_mixer := some { fmt := c3Fmt, b_alloc := true },
    pp_inputs := [{ b_error := false, b_paused := false, fifo := [c3buf],
                    begin := some 1000, is_invalid := false },
                  { b_error := false, b_paused := false, fifo := [],
                    begin := none, is_invalid := false }],
    output_fifo := { buffers := [],
                     end_date := { date := 500000, i_divider_num := 1000000,
                                   i_divider_den := 1, i_remainder := 0 } },
    i_nb_samples := 1000,
    mixer_format := c3Fmt }

def c3wIn : aout_input_t :=
  { b_error := false, b_paused := false,
    fifo := [c1Buf 100000 1000, c1Buf 121333 9192, c1Buf 142666 17384],
    begin := none, is_invalid := false }

def c3wpost : aout_input_t :=
  { b_error := false, b_paused := false,
    fifo := [c1Buf 100000 1000, c1Buf 121333 9192, c1Buf 142666 17384],
    begin := some 1000, is_invalid := false }

def c9Fmt : audio_format_t :=
  { i_bytes_per_frame := 4, i_frame_length := 1, i_rate := 1000000, non_linear := true }

def c9buf0 : aout_buffer_t :=
  { i_pts := 0, i_length := 10, i_nb_samples := 10, p_buffer := 300, i_buffer_size := 40 }

def c9buf1 : aout_buffer_t :=
  { i_pts := 99, i_length := 2000, i_nb_samples := 2000, p_buffer := 700,
    i_buffer_size := 8000 }

def c9in0 : aout_input_t :=
  { b_error := false, b_paused := true, fifo := [c9buf0], begin := some 307,
    is_invalid := false }

def c9w : aout_instance_t :=
  { p_mixer := some { fmt := c9Fmt, b_alloc := true },
    pp_inputs := [c9in0,
                  { b_error := false, b_paused := false, fifo := [c9buf1],
                    begin := none, is_invalid := false }],
    output_fifo := { buffers := [],
                     end_date := { date := 100, i_divider_num := 1000000,
                                   i_divider_den := 1, i_remainder := 0 } },
    i_nb_samples := 20,
    mixer_format := c9Fmt }

def c9post : aout_input_t :=
  { b_error := false, b_paused := true, fifo := [c9buf0], begin := some 307,
    is_invalid := true }

def c7date : date_t :=
  { date := 0, i_divider_num := 1000000, i_divider_den := 1, i_remainder := 0 }

def c7in0 : aout_input_t :=
  { b_error := false, b_paused := false,
    fifo := [{ i_pts := 10, i_length := 5, i_nb_samples := 5, p_buffer := 0,
               i_buffer_size := 20 }],
    begin := none, is_invalid := false }

def c7in1 : aout_input_t :=
  { b_error := false, b_paused := false,
    fifo := [{ i_pts := 100, i_length := 40, i_nb_samples := 40, p_buffer := 100,
               i_buffer_size := 160 }],
    begin := none, is_invalid := false }

def c7w2 : aout_instance_t :=
  { p_mixer := some { fmt := c9Fmt, b_alloc := true },
    pp_inputs := [{ b_error := false, b_paused := false, fifo := [],
                    begin := none, is_invalid := false }],
    output_fifo := { buffers := [], end_date := c7date },
    i_nb_samples := 20,
    mixer_format := c9Fmt }

/-! ### Theorems -/

/-- Pointwise extraction from `List.Forall₂` (left to right). -/
theorem forall2_get_left {α β : Type} {R : α → β → Prop} :
    ∀ {l1 : List α} {l2 : List β}, List.Forall₂ R l1 l2 →
      ∀ i x, l1.get? i = some x → ∃ y, l2.get? i = some y ∧ R x y := by
  intro l1 l2 h
  induction h with
  | nil => intro i x hx; simp at hx
  | cons hab _ ih =>
    intro i x hx
    cases i with
    | zero => injection hx with hx; subst hx; exact ⟨_, rfl, hab⟩
    | succ n => exact ih n x hx

/-- Pointwise extraction from `List.Forall₂` (right to left). -/
theorem forall2_get_right {α β : Type} {R : α → β → Prop} :
    ∀ {l1 : List α} {l2 : List β}, List.Forall₂ R l1 l2 →
      ∀ i y, l2.get? i = some y → ∃ x, l1.get? i = some x ∧ R x y := by
  intro l1 l2 h
  induction h with
  | nil => intro i y hy; simp at hy
  | cons hab _ ih =>
    intro i y hy
    cases i with
    | zero => injection hy with hy; subst hy; exact ⟨_, rfl, hab⟩
    | succ n => exact ih n y hy

/-- Composition of two `List.Forall₂` along a middle list. -/
theorem forall2_comp {α β γ : Type} {R : α → β → Prop} {S : β → γ → Prop} :
    ∀ {l1 : List α} {l2 : List β} {l3 : List γ},
      List.Forall₂ R l1 l2 → List.Forall₂ S l2 l3 →
      List.Forall₂ (fun x z => ∃ y, R x y ∧ S y z) l1 l3 := by
  intro l1 l2 l3 h
  induction h generalizing l3 with
  | nil => intro h2; cases h2; exact List.Forall₂.nil
  | cons hab _ ih =>
    intro h2
    cases h2 with
    | cons hbc htail => exact List.Forall₂.cons ⟨_, hab, hbc⟩ (ih htail)

/-- `List.Forall₂` is preserved by replacing one element on the right, as
long as the replacement is still related to the left element at that
position. -/
theorem forall2_set {α β : Type} {R : α → β → Prop} :
    ∀ {l1 : List α} {l2 : List β}, List.Forall₂ R l1 l2 →
      ∀ (i : Nat) (y : β), (∀ x, l1.get? i = some x → R x y) →
        List.Forall₂ R l1 (l2.set i y) := by
  intro l1 l2 h
  induction h with
  | nil => intro i y _; exact List.Forall₂.nil
  | cons hab htail ih =>
    intro i y hy
    cases i with
    | zero => exact List.Forall₂.cons (hy _ rfl) htail
    | succ n => exact List.Forall₂.cons hab (ih n y hy)

/-- Truncating division composes over positive divisors, as in C. -/
theorem tdiv_tdiv_eq (x a b : Int) (ha : 0 ≤ a) (hb : 0 ≤ b) :
    (x.tdiv a).tdiv b = x.tdiv (a * b) := by
  obtain ⟨p, rfl⟩ := Int.eq_ofNat_of_zero_le ha
  obtain ⟨q, rfl⟩ := Int.eq_ofNat_of_zero_le hb
  cases x with
  | ofNat m =>
    show Int.ofNat (m / p / q) = Int.ofNat (m / (p * q))
    rw [Nat.div_div_eq_div_mul]
  | negSucc m =>
    show (-Int.ofNat (m.succ / p)).tdiv (Int.ofNat q) = -Int.ofNat (m.succ / (p * q))
    rw [Int.neg_tdiv]
    show -Int.ofNat (m.succ / p / q) = -Int.ofNat (m.succ / (p * q))
    rw [Nat.div_div_eq_div_mul]

/-- Claim C2: with no mixer bound, `MixBuffer` returns not-ready after freeing
every buffer of every non-errored input's queue; errored inputs' queues are
untouched (mixer.c lines 102-120). -/
theorem C2_no_growth_detached (now : Int) (al : Bool) (a : aout_instance_t)
    (h : a.p_mixer = none) :
    (MixBuffer now al a).2 = MixResult.NotReady ∧
    ∀ (i : Nat) (p : aout_input_t), a.pp_inputs.get? i = some p →
      ∃ p', (MixBuffer now al a).1.pp_inputs.get? i = some p' ∧
        (p.b_error = true → p' = p) ∧
        (p.b_error = false → p'.fifo = [] ∧ p'.begin = p.begin ∧
          p'.b_error = p.b_error ∧ p'.b_paused = p.b_paused ∧
          p'.is_invalid = p.is_invalid) := by
  have hmb : MixBuffer now al a =
      ({ a with pp_inputs := freeDetached a.pp_inputs }, MixResult.NotReady) := by
    unfold MixBuffer; rw [h]
  refine ⟨by rw [hmb], ?_⟩
  intro i p hp
  rw [hmb]
  refine ⟨if p.b_error then p else { p with fifo := [] }, ?_, ?_, ?_⟩
  · show (freeDetached a.pp_inputs).get? i = _
    unfold freeDetached
    rw [List.get?_map, hp]
    rfl
  · intro hb; simp [hb]
  · intro hb; simp [hb]

theorem C2_witness :
    (MixBuffer 0 true c2w).2 = MixResult.NotReady ∧
    (∃ p', (MixBuffer 0 true c2w).1.pp_inputs.get? 1 = some p' ∧ p'.fifo = []) ∧
    (∃ p', (MixBuffer 0 true c2w).1.pp_inputs.get? 0 = some p' ∧ p' = c2wIn1) := by
  obtain ⟨h1, h2⟩ := C2_no_growth_detached 0 true c2w rfl
  refine ⟨h1, ?_, ?_⟩
  · obtain ⟨p', hp', _, hfree⟩ := h2 1 c2wIn2 rfl
    exact ⟨p', hp', (hfree rfl).1⟩
  · obtain ⟨p', hp', herr, _⟩ := h2 0 c2wIn1 rfl
    exact ⟨p', hp', herr rfl⟩

/-- Claim C8: when `aout_MixerNew` fails (object allocation or kernel
resolution), it returns the error and the aout stays unbound
(`p_mixer` still `NULL`); the mixer is published only on success
(mixer.c lines 44-71). -/
theorem C8_attach_failure_atomic (co mo : Bool) (a a' : aout_instance_t)
    (r : MixerNewResult) (hpre : a.p_mixer = none)
    (h : aout_MixerNew co mo a = some (a', r)) :
    (r ≠ MixerNewResult.success → a'.p_mixer = none ∧ r = MixerNewResult.egeneric) ∧
    (r = MixerNewResult.success →
       a'.p_mixer = some { fmt := a.mixer_format, b_alloc := true }) := by
  unfold aout_MixerNew at h
  cases co with
  | false =>
    simp only [Bool.not_false, if_pos] at h
    obtain ⟨rfl, rfl⟩ : a = a' ∧ MixerNewResult.egeneric = r := by
      constructor <;> [exact congrArg Prod.fst (Option.some_injective _ h);
                      exact congrArg Prod.snd (Option.some_injective _ h)]
    exact ⟨fun _ => ⟨hpre, rfl⟩, fun hs => by cases hs⟩
  | true =>
    simp only [Bool.not_true, if_neg, Bool.false_eq_true, not_false_iff, if_false] at h
    cases hh : a.pp_inputs.head? with
    | none => rw [hh] at h; cases h
    | some q =>
      rw [hh] at h
      cases mo with
      | false =>
        simp only [Bool.not_false, if_pos] at h
        obtain ⟨rfl, rfl⟩ : a = a' ∧ MixerNewResult.egeneric = r := by
          constructor <;> [exact congrArg Prod.fst (Option.some_injective _ h);
                          exact congrArg Prod.snd (Option.some_injective _ h)]
        exact ⟨fun _ => ⟨hpre, rfl⟩, fun hs => by cases hs⟩
      | true =>
        simp only [Bool.not_true, Bool.false_eq_true, not_false_iff, if_false] at h
        have h1 := congrArg Prod.fst (Option.some_injective _ h)
        have h2 := congrArg Prod.snd (Option.some_injective _ h)
        simp only at h1 h2
        subst h1; subst h2
        exact ⟨fun hn => absurd rfl hn, fun _ => rfl⟩

theorem C8_witness :
    ∃ a' r, aout_MixerNew true false c8w = some (a', r) ∧
      a'.p_mixer = none ∧ r = MixerNewResult.egeneric := by
  have h : aout_MixerNew true false c8w = some (c8w, MixerNewResult.egeneric) := by rfl
  obtain ⟨h1, _⟩ := C8_attach_failure_atomic true false c8w c8w
    MixerNewResult.egeneric rfl h
  exact ⟨c8w, MixerNewResult.egeneric, h, h1 (by simp)⟩

/-- Claim C10: `aout_MixerNew` reads `pp_inputs[0]` (line 56) once the mixer
object is allocated, so on a zero-input aout that read is out of bounds
(modelled as the `none` result); with at least one input the call is
well-defined. -/
theorem C10_attach_requires_input (co mo : Bool) (a : aout_instance_t) :
    (a.pp_inputs = [] → aout_MixerNew true mo a = none) ∧
    (a.pp_inputs ≠ [] → ∃ res, aout_MixerNew co mo a = some res) := by
  constructor
  · intro he
    unfold aout_MixerNew
    rw [he]
    rfl
  · intro hne
    unfold aout_MixerNew
    cases co with
    | false => exact ⟨(a, MixerNewResult.egeneric), rfl⟩
    | true =>
      cases hl : a.pp_inputs with
      | nil => exact absurd hl hne
      | cons q t =>
        cases mo with
        | false => exact ⟨(a, MixerNewResult.egeneric), rfl⟩
        | true => exact ⟨_, rfl⟩

theorem C10_witness :
    aout_MixerNew true true c10w = none ∧
    ∃ res, aout_MixerNew true true c8w = some res := by
  refine ⟨(C10_attach_requires_input true true c10w).1 rfl, ?_⟩
  exact (C10_attach_requires_input true true c8w).2 (by simp [c8w])

/-- On a successful emission, the output block was stamped with the tick's
start date and `aout_OutputPlay` advanced the output FIFO to its end. -/
theorem mixAdmitAndEmit_ready (al : Bool) (m : aout_mixer_t) (a : aout_instance_t)
    (fifo1 : aout_fifo_t) (ins : List aout_input_t) (ex : date_t) (st : Int)
    (s : aout_instance_t) (out : aout_buffer_t)
    (h : mixAdmitAndEmit al m a fifo1 ins ex st = (s, MixResult.Ready out)) :
    out.i_pts = st ∧ s.output_fifo.end_date.date = out.i_pts + out.i_length := by
  unfold mixAdmitAndEmit at h
  dsimp only at h
  split at h
  · simp only [Prod.mk.injEq] at h
    cases h.2
  · split at h
    · simp only [Prod.mk.injEq] at h
      cases h.2
    · simp only [Prod.mk.injEq] at h
      obtain ⟨hs, hout⟩ := h
      injection hout with hout
      subst hout
      subst hs
      exact ⟨rfl, rfl⟩

/-- A successful `MixBuffer` call leaves the output FIFO's `end_date` at the
end of the emitted block. -/
theorem MixBuffer_ready_end (now : Int) (al : Bool) (a s : aout_instance_t)
    (out : aout_buffer_t) (h : MixBuffer now al a = (s, MixResult.Ready out)) :
    s.output_fifo.end_date.date = out.i_pts + out.i_length := by
  unfold MixBuffer at h
  cases hm : a.p_mixer with
  | none =>
    rw [hm] at h
    simp only [Prod.mk.injEq] at h
    cases h.2
  | some m =>
    rw [hm] at h
    dsimp only at h
    split at h
    · split at h
      · simp only [Prod.mk.injEq] at h
        cases h.2
      · exact (mixAdmitAndEmit_ready _ _ _ _ _ _ _ _ _ h).2
    · split at h
      · split at h
        · simp only [Prod.mk.injEq] at h
          cases h.2
        · exact (mixAdmitAndEmit_ready _ _ _ _ _ _ _ _ _ h).2
      · exact (mixAdmitAndEmit_ready _ _ _ _ _ _ _ _ _ h).2

/-- When the output clock is non-zero and not in the past, a successful
`MixBuffer` stamps its output exactly at the clock value (no reset, no
rediscovery). -/
theorem MixBuffer_ready_pts_of_nonzero (now : Int) (al : Bool)
    (a s : aout_instance_t) (out : aout_buffer_t)
    (h0 : a.output_fifo.end_date.date ≠ 0)
    (hlate : ¬ a.output_fifo.end_date.date < now)
    (h : MixBuffer now al a = (s, MixResult.Ready out)) :
    out.i_pts = a.output_fifo.end_date.date := by
  unfold MixBuffer at h
  cases hm : a.p_mixer with
  | none =>
    rw [hm] at h
    simp only [Prod.mk.injEq] at h
    cases h.2
  | some m =>
    rw [hm] at h
    dsimp only at h
    rw [if_neg (show ¬(date_Get a.output_fifo.end_date ≠ 0 ∧
          date_Get a.output_fifo.end_date < now) from fun hc => hlate hc.2),
        if_neg (show ¬date_Get a.output_fifo.end_date = 0 from h0)] at h
    exact (mixAdmitAndEmit_ready _ _ _ _ _ _ _ _ _ h).1

/-- Claim C1: between two consecutive successful `MixBuffer` calls with no
clock reset in the second call (the output clock is neither the unset value
`0` nor in the past of `mdate()`), the second output's PTS is exactly the
first output's PTS plus its length: the start date is read back from the
output FIFO's `end_date`, which the first call left at the end of its block
(mixer.c lines 126-189 and 341-350). -/
theorem C1_output_monotonicity (now1 now2 : Int) (al1 al2 : Bool)
    (a1 s2 s3 : aout_instance_t) (A B : aout_buffer_t)
    (h1 : MixBuffer now1 al1 a1 = (s2, MixResult.Ready A))
    (hnz : A.i_pts + A.i_length ≠ 0)
    (hlate : ¬ A.i_pts + A.i_length < now2)
    (h2 : MixBuffer now2 al2 s2 = (s3, MixResult.Ready B)) :
    B.i_pts = A.i_pts + A.i_length := by
  have he := MixBuffer_ready_end now1 al1 a1 s2 A h1
  have hp := MixBuffer_ready_pts_of_nonzero now2 al2 s2 s3 B
    (by rw [he]; exact hnz) (by rw [he]; exact hlate) h2
  rw [hp, he]

theorem C1_witness : c1B.i_pts = c1A.i_pts + c1A.i_length :=
  C1_output_monotonicity 90000 90000 true true c1w (MixBuffer 90000 true c1w).1
    (MixBuffer 90000 true (MixBuffer 90000 true c1w).1).1 c1A c1B
    (by decide) (by decide) (by decide) (by decide)

/-- With a mixer bound and a non-zero, non-late output clock, `MixBuffer` is
exactly the admission-and-emission stage at the clock's date. -/
theorem MixBuffer_admit_eq (now : Int) (al : Bool) (a : aout_instance_t)
    (m : aout_mixer_t) (hm : a.p_mixer = some m)
    (h0 : a.output_fifo.end_date.date ≠ 0)
    (hlate : ¬ a.output_fifo.end_date.date < now) :
    MixBuffer now al a =
      mixAdmitAndEmit al m a a.output_fifo a.pp_inputs a.output_fifo.end_date
        (date_Get a.output_fifo.end_date) := by
  unfold MixBuffer
  rw [hm]
  dsimp only
  rw [if_neg (show ¬(date_Get a.output_fifo.end_date ≠ 0 ∧
        date_Get a.output_fifo.end_date < now) from fun hc => hlate hc.2),
      if_neg (show ¬date_Get a.output_fifo.end_date = 0 from h0)]

/-- If the admission loop stopped before the last input, `MixBuffer`'s
admission stage returns not-ready, clearing the output FIFO exactly when the
stop was the clock-resetting break. -/
theorem mixAdmitAndEmit_break (al : Bool) (m : aout_mixer_t) (a : aout_instance_t)
    (fifo : aout_fifo_t) (ins ins' : List aout_input_t) (ex : date_t) (st : Int)
    (iE fE : Nat) (rst : Bool)
    (h : admitLoop m.fmt st (date_Get (date_Increment ex a.i_nb_samples)) 0 0 ins
          = (ins', iE, fE, rst))
    (hlt : iE < ins.length) :
    mixAdmitAndEmit al m a fifo ins ex st =
      ({ a with pp_inputs := ins',
                output_fifo := if rst then aout_FifoSet fifo 0 else fifo },
       MixResult.NotReady) := by
  unfold mixAdmitAndEmit
  dsimp only
  rw [h]
  dsimp only
  rw [if_pos (Or.inl hlt)]

/-- A valid input whose queue the past-packet drop empties makes the
per-input admission halt. -/
theorem admitInput_halt_of_empty (fmt : audio_format_t) (start endd : Int)
    (p : aout_input_t) (hval : (p.b_error || p.b_paused) = false)
    (hne : p.fifo ≠ []) (hempty : (pastDropFifo start p.fifo).1 = []) :
    admitInput fmt start endd p =
      (applyPastDrop start { p with is_invalid := false }, AdmitOutcome.halt) := by
  have hpd : (applyPastDrop start { p with is_invalid := false }).fifo = [] := by
    unfold applyPastDrop
    exact hempty
  unfold admitInput
  rw [hval]
  simp only [Bool.false_eq_true, if_false]
  split
  · next heq => exact absurd heq hne
  · next heq =>
    split
    · rfl
    · next b2 t2 heq2 =>
      rw [hpd] at heq2
      cases heq2

/-- A halting input stops the admission loop right there. -/
theorem admitLoop_cons_halt (fmt : audio_format_t) (start endd : Int)
    (i f : Nat) (p p' : aout_input_t) (rest : List aout_input_t)
    (h : admitInput fmt start endd p = (p', AdmitOutcome.halt)) :
    admitLoop fmt start endd i f (p :: rest) = (p' :: rest, i, f, false) := by
  unfold admitLoop
  rw [h]

/-- Claim C6: the past-packet drop of Step F pops exactly the maximal head
run of buffers ending strictly more than 1 microsecond before `start_date`
(each pop resetting `begin` to `NULL`), keeps the first head at or after
`start_date - 1`, and if it empties the queue the tick ends not-ready
(mixer.c lines 214-231). -/
theorem C6_past_packet_drop :
    (∀ (start : Int) (q : List aout_buffer_t),
       (pastDropFifo start q).1 =
         q.dropWhile (fun b => decide (b.i_pts + b.i_length < start - 1))) ∧
    (∀ (start : Int) (p : aout_input_t),
       (pastDropFifo start p.fifo).2 = true → (applyPastDrop start p).begin = none) ∧
    (∀ (start : Int) (q : List aout_buffer_t) (b : aout_buffer_t)
       (t : List aout_buffer_t),
       (pastDropFifo start q).1 = b :: t → ¬(b.i_pts + b.i_length < start - 1)) ∧
    (∀ (now : Int) (al : Bool) (a : aout_instance_t) (m : aout_mixer_t)
       (p : aout_input_t) (rest : List aout_input_t),
       a.p_mixer = some m →
       a.output_fifo.end_date.date ≠ 0 →
       ¬ a.output_fifo.end_date.date < now →
       a.pp_inputs = p :: rest →
       (p.b_error || p.b_paused) = false →
       p.fifo ≠ [] →
       (pastDropFifo a.output_fifo.end_date.date p.fifo).1 = [] →
       (MixBuffer now al a).2 = MixResult.NotReady) := by
  have hdw : ∀ (start : Int) (q : List aout_buffer_t),
      (pastDropFifo start q).1 =
        q.dropWhile (fun b => decide (b.i_pts + b.i_length < start - 1)) := by
    intro start q
    induction q with
    | nil => rfl
    | cons b rest ih =>
      rw [List.dropWhile_cons]
      unfold pastDropFifo
      by_cases hb : b.i_pts + b.i_length < start - 1
      · rw [if_pos hb,
           if_pos (show decide (b.i_pts + b.i_length < start - 1) = true by
             simpa using hb)]
        exact ih
      · rw [if_neg hb,
           if_neg (show ¬decide (b.i_pts + b.i_length < start - 1) = true by
             simpa using hb)]
  refine ⟨hdw, ?_, ?_, ?_⟩
  · intro start p h
    unfold applyPastDrop
    dsimp only
    rw [h]
    rfl
  · intro start q b t h
    induction q with
    | nil => cases h
    | cons c rest ih =>
      unfold pastDropFifo at h
      by_cases hc : c.i_pts + c.i_length < start - 1
      · rw [if_pos hc] at h
        exact ih h
      · rw [if_neg hc] at h
        injection h with h1 _
        subst h1
        exact hc
  · intro now al a m p rest hm h0 hlate hin hval hne hempty
    rw [MixBuffer_admit_eq now al a m hm h0 hlate, hin]
    have hhalt := admitInput_halt_of_empty m.fmt (date_Get a.output_fifo.end_date)
      (date_Get (date_Increment a.output_fifo.end_date a.i_nb_samples)) p hval hne hempty
    have hloop := admitLoop_cons_halt m.fmt (date_Get a.output_fifo.end_date)
      (date_Get (date_Increment a.output_fifo.end_date a.i_nb_samples)) 0 0 p _ rest hhalt
    rw [mixAdmitAndEmit_break al m a a.output_fifo (p :: rest) _
      a.output_fifo.end_date (date_Get a.output_fifo.end_date) 0 0 false hloop
      (Nat.succ_pos rest.length)]

theorem C6_witness :
    (pastDropFifo 100000 [c6buf]).1 = [] ∧
    (MixBuffer 50 true c6w).2 = MixResult.NotReady := by
  refine ⟨by decide, ?_⟩
  exact C6_past_packet_drop.2.2.2 50 true c6w _ _ [] rfl (by decide) (by decide)
    rfl (by decide) (by decide) (by decide)

/-- Unfolding `specChainCoversFrom` one link: it demands the link match and
then the chain condition from the next head. -/
theorem specChainCoversFrom_cons (endd : Int) :
    ∀ (r : List aout_buffer_t) (prev : Int) (c : aout_buffer_t),
      specChainCoversFrom endd prev (c :: r) =
        (decide (prev = c.i_pts) && specChainCovers endd (c :: r)) := by
  intro r
  induction r with
  | nil => intro prev c; rfl
  | cons d r2 ih =>
    intro prev c
    show (decide (prev = c.i_pts) &&
        (decide (c.i_pts + c.i_length ≥ endd) ||
          specChainCoversFrom endd (c.i_pts + c.i_length) (d :: r2))) = _
    rw [ih]
    rfl

/-- A non-covering head reduces the chain condition to the tail condition. -/
theorem specChainCovers_cons_not_cover (endd : Int) (b : aout_buffer_t)
    (rest : List aout_buffer_t) (hcov : ¬ b.i_pts + b.i_length ≥ endd) :
    specChainCovers endd (b :: rest) =
      specChainCoversFrom endd (b.i_pts + b.i_length) rest := by
  cases rest with
  | nil =>
    show (decide (b.i_pts + b.i_length ≥ endd) || false) = false
    rw [decide_eq_false hcov]
    rfl
  | cons c r2 =>
    show (decide (b.i_pts + b.i_length ≥ endd) ||
        (decide (b.i_pts + b.i_length = c.i_pts) && specChainCovers endd (c :: r2))) = _
    rw [specChainCoversFrom_cons, decide_eq_false hcov, Bool.false_or]

/-- The sufficiency scan only ever drops a prefix of the queue. -/
theorem coverScan_suffix (endd : Int) :
    ∀ (l q0 : List aout_buffer_t) (prev : Int), List.IsSuffix l q0 →
      List.IsSuffix (coverScan endd q0 prev l).2 q0 := by
  intro l
  induction l with
  | nil => intro q0 prev _; exact List.suffix_refl q0
  | cons b rest ih =>
    intro q0 prev h
    simp only [coverScan]
    split
    · split
      · exact h
      · exact List.IsSuffix.trans (ih (b :: rest) _ (List.suffix_cons b rest)) h
    · split
      · exact List.suffix_refl q0
      · exact ih q0 _ (List.IsSuffix.trans (List.suffix_cons b rest) h)

/-- The sufficiency scan's verdict is exactly the spec's contiguous-coverage
condition on the queue it leaves behind. -/
theorem coverScan_spec (endd : Int) :
    ∀ (l q0 : List aout_buffer_t) (prev : Int),
      specChainCovers endd q0 = specChainCoversFrom endd prev l →
      (coverScan endd q0 prev l).1 = specChainCovers endd (coverScan endd q0 prev l).2 := by
  intro l
  induction l with
  | nil =>
    intro q0 prev h
    simp only [coverScan]
    exact h.symm
  | cons b rest ih =>
    intro q0 prev h
    simp only [coverScan]
    split
    · next hgap =>
      split
      · next hcov =>
        show true = specChainCovers endd (b :: rest)
        cases rest with
        | nil =>
          show true = (decide (b.i_pts + b.i_length ≥ endd) || false)
          rw [decide_eq_true hcov]
          rfl
        | cons c r2 =>
          show true = (decide (b.i_pts + b.i_length ≥ endd) ||
            (decide (b.i_pts + b.i_length = c.i_pts) && specChainCovers endd (c :: r2)))
          rw [decide_eq_true hcov]
          rfl
      · next hcov =>
        exact ih _ _ (specChainCovers_cons_not_cover endd b rest hcov)
    · next hgap =>
      have hpb : prev = b.i_pts := not_not.mp hgap
      split
      · next hcov =>
        rw [h, specChainCoversFrom_cons, decide_eq_true hpb, Bool.true_and]
        show true = specChainCovers endd (b :: rest)
        cases rest with
        | nil =>
          show true = (decide (b.i_pts + b.i_length ≥ endd) || false)
          rw [decide_eq_true hcov]
          rfl
        | cons c r2 =>
          show true = (decide (b.i_pts + b.i_length ≥ endd) ||
            (decide (b.i_pts + b.i_length = c.i_pts) && specChainCovers endd (c :: r2)))
          rw [decide_eq_true hcov]
          rfl
      · next hcov =>
        apply ih
        rw [h, specChainCoversFrom_cons, decide_eq_true hpb, Bool.true_and]
        exact specChainCovers_cons_not_cover endd b rest hcov

/-- The whole sufficiency loop: verdict equals the spec condition on the
final queue, and it only drops a prefix. -/
theorem ensureCoverage_spec (endd : Int) (q : List aout_buffer_t) :
    (ensureCoverage endd q).1 = specChainCovers endd (ensureCoverage endd q).2 ∧
    List.IsSuffix (ensureCoverage endd q).2 q := by
  cases q with
  | nil => exact ⟨rfl, List.suffix_refl []⟩
  | cons b rest =>
    simp only [ensureCoverage]
    split
    · next hcov =>
      refine ⟨?_, List.suffix_refl _⟩
      show true = specChainCovers endd (b :: rest)
      cases rest with
      | nil =>
        show true = (decide (b.i_pts + b.i_length ≥ endd) || false)
        rw [decide_eq_true hcov]
        rfl
      | cons c r2 =>
        show true = (decide (b.i_pts + b.i_length ≥ endd) ||
          (decide (b.i_pts + b.i_length = c.i_pts) && specChainCovers endd (c :: r2)))
        rw [decide_eq_true hcov]
        rfl
    · next hcov =>
      exact ⟨coverScan_spec endd rest (b :: rest) _
          (specChainCovers_cons_not_cover endd b rest hcov),
        coverScan_suffix endd rest (b :: rest) _ (List.suffix_cons b rest)⟩

/-- A valid input whose (past-dropped) queue fails the sufficiency scan makes
the per-input admission halt. -/
theorem admitInput_halt_of_uncovered (fmt : audio_format_t) (start endd : Int)
    (p : aout_input_t) (hval : (p.b_error || p.b_paused) = false)
    (hne : p.fifo ≠ []) (hq1 : (pastDropFifo start p.fifo).1 ≠ [])
    (hcov : (ensureCoverage endd (pastDropFifo start p.fifo).1).1 = false) :
    ∃ p', admitInput fmt start endd p = (p', AdmitOutcome.halt) := by
  unfold admitInput
  rw [hval]
  simp only [Bool.false_eq_true, if_false]
  split
  · next heq => exact absurd heq hne
  · next heq =>
    split
    · next heq2 =>
      exact absurd (show (pastDropFifo start p.fifo).1 = [] from heq2) hq1
    · next b2 t2 heq2 =>
      rw [if_pos (show (ensureCoverage endd
          (applyPastDrop start { p with is_invalid := false }).fifo).1 = false from hcov)]
      exact ⟨_, rfl⟩

/-- Claim C4 (amended): the Step F sufficiency scan only frees a prefix of
the queue (everything strictly before the accepted new head), its verdict is
exactly the contiguous-coverage condition on the remaining queue (each link
`prev.pts + prev.length = cur.pts` up to a buffer reaching `end_date`), and
when the scan fails the tick returns not-ready; the gap drop does NOT reset
`begin` (mixer.c lines 233-270). -/
theorem C4_gap_handling :
    (∀ (endd : Int) (q : List aout_buffer_t),
       List.IsSuffix (ensureCoverage endd q).2 q) ∧
    (∀ (endd : Int) (q : List aout_buffer_t),
       (ensureCoverage endd q).1 = specChainCovers endd (ensureCoverage endd q).2) ∧
    (∀ (now : Int) (al : Bool) (a : aout_instance_t) (m : aout_mixer_t)
       (p : aout_input_t) (rest : List aout_input_t),
       a.p_mixer = some m →
       a.output_fifo.end_date.date ≠ 0 →
       ¬ a.output_fifo.end_date.date < now →
       a.pp_inputs = p :: rest →
       (p.b_error || p.b_paused) = false →
       p.fifo ≠ [] →
       (pastDropFifo a.output_fifo.end_date.date p.fifo).1 ≠ [] →
       (ensureCoverage (date_Get (date_Increment a.output_fifo.end_date a.i_nb_samples))
         (pastDropFifo a.output_fifo.end_date.date p.fifo).1).1 = false →
       (MixBuffer now al a).2 = MixResult.NotReady) := by
  refine ⟨fun endd q => (ensureCoverage_spec endd q).2,
          fun endd q => (ensureCoverage_spec endd q).1, ?_⟩
  intro now al a m p rest hm h0 hlate hin hval hne hq1 hcov
  rw [MixBuffer_admit_eq now al a m hm h0 hlate, hin]
  obtain ⟨p', hhalt⟩ := admitInput_halt_of_uncovered m.fmt
    (date_Get a.output_fifo.end_date)
    (date_Get (date_Increment a.output_fifo.end_date a.i_nb_samples)) p hval hne hq1 hcov
  have hloop := admitLoop_cons_halt m.fmt (date_Get a.output_fifo.end_date)
    (date_Get (date_Increment a.output_fifo.end_date a.i_nb_samples)) 0 0 p p' rest hhalt
  rw [mixAdmitAndEmit_break al m a a.output_fifo (p :: rest) _
    a.output_fifo.end_date (date_Get a.output_fifo.end_date) 0 0 false hloop
    (Nat.succ_pos rest.length)]

theorem C4_counterexample :
    c4st.pp_inputs.map (fun p => (p.begin, p.fifo)) = [(some 42, [c4buf1, c4buf2])] ∧
    (MixBuffer 3 true c4st).1.pp_inputs.map (fun p => (p.begin, p.fifo))
      = [(some 42, [c4buf2])] := by decide

theorem C4_witness :
    List.IsSuffix (ensureCoverage 25 [c4buf1, c4buf2]).2 [c4buf1, c4buf2] ∧
    (MixBuffer 50 true c4w2).2 = MixResult.NotReady := by
  refine ⟨C4_gap_handling.1 25 [c4buf1, c4buf2], ?_⟩
  exact C4_gap_handling.2.2 50 true c4w2 _ _ [] rfl (by decide) (by decide)
    rfl (by decide) (by decide) (by decide) (by decide)

/-- Case analysis of the linear cursor reconciliation, with the ideal offset
in the claim's single-division form. -/
theorem admitLinear_cases (fmt : audio_format_t) (start : Int) (p : aout_input_t)
    (b : aout_buffer_t) (hfl : 0 ≤ fmt.i_frame_length) :
    ((¬(idealOffset fmt start b + fmt.i_bytes_per_frame >
          p.begin.getD b.p_buffer - b.p_buffer ∧
        idealOffset fmt start b < fmt.i_bytes_per_frame +
          (p.begin.getD b.p_buffer - b.p_buffer))) →
       (roundedOffset fmt start b < 0 →
         admitLinear fmt start p b =
           ({ p with begin := some (p.begin.getD b.p_buffer) }, true)) ∧
       (¬roundedOffset fmt start b < 0 →
         admitLinear fmt start p b =
           ({ p with begin := some (b.p_buffer + roundedOffset fmt start b) }, false))) ∧
    ((idealOffset fmt start b + fmt.i_bytes_per_frame >
        p.begin.getD b.p_buffer - b.p_buffer ∧
      idealOffset fmt start b < fmt.i_bytes_per_frame +
        (p.begin.getD b.p_buffer - b.p_buffer)) →
       admitLinear fmt start p b =
         ({ p with begin := some (p.begin.getD b.p_buffer) }, false)) := by
  have heq : Int.tdiv (Int.tdiv ((start - b.i_pts) * fmt.i_bytes_per_frame * fmt.i_rate)
      fmt.i_frame_length) 1000000 = idealOffset fmt start b :=
    tdiv_tdiv_eq _ _ _ hfl (by norm_num)
  refine ⟨fun htol => ⟨fun hneg => ?_, fun hpos => ?_⟩, fun htol => ?_⟩
  · unfold admitLinear
    dsimp only
    rw [heq, if_pos htol,
       if_pos (show Int.tdiv (idealOffset fmt start b) fmt.i_bytes_per_frame *
         fmt.i_bytes_per_frame < 0 from hneg)]
  · unfold admitLinear
    dsimp only
    rw [heq, if_pos htol,
       if_neg (show ¬Int.tdiv (idealOffset fmt start b) fmt.i_bytes_per_frame *
         fmt.i_bytes_per_frame < 0 from hpos)]
    rfl
  · unfold admitLinear
    dsimp only
    rw [heq, if_neg (not_not_intro htol)]

/-- A clock-resetting break makes the admission loop stop strictly before
the end of the input list. -/
theorem admitLoop_reset_lt (fmt : audio_format_t) (start endd : Int) :
    ∀ (l : List aout_input_t) (i f : Nat) (ins' : List aout_input_t) (iE fE : Nat),
      admitLoop fmt start endd i f l = (ins', iE, fE, true) → iE < i + l.length := by
  intro l
  induction l with
  | nil =>
    intro i f ins' iE fE h
    simp only [admitLoop, Prod.mk.injEq] at h
    cases h.2.2.2
  | cons p rest ih =>
    intro i f ins' iE fE h
    unfold admitLoop at h
    dsimp only at h
    cases hr : (admitInput fmt start endd p).2 with
    | skip =>
      rw [hr] at h
      dsimp only at h
      rcases ht : admitLoop fmt start endd (i + 1) (if f = i then f + 1 else f) rest with
        ⟨l2, i2, f2, rst2⟩
      rw [ht] at h
      simp only [Prod.mk.injEq] at h
      obtain ⟨-, h2, -, h4⟩ := h
      subst h4
      have hlt := ih (i + 1) (if f = i then f + 1 else f) l2 i2 f2 ht
      simp only [List.length_cons]
      omega
    | ok =>
      rw [hr] at h
      dsimp only at h
      rcases ht : admitLoop fmt start endd (i + 1) f rest with ⟨l2, i2, f2, rst2⟩
      rw [ht] at h
      simp only [Prod.mk.injEq] at h
      obtain ⟨-, h2, -, h4⟩ := h
      subst h4
      have hlt := ih (i + 1) f l2 i2 f2 ht
      simp only [List.length_cons]
      omega
    | halt =>
      rw [hr] at h
      simp only [Prod.mk.injEq] at h
      cases h.2.2.2
    | haltReset =>
      rw [hr] at h
      simp only [Prod.mk.injEq] at h
      obtain ⟨-, h2, -, -⟩ := h
      simp only [List.length_cons]
      omega

/-- A clock-resetting break in the admission pass makes `MixBuffer` return
not-ready with the output FIFO cleared and its date accumulator at 0. -/
theorem MixBuffer_reset_notready (now : Int) (al : Bool) (a : aout_instance_t)
    (m : aout_mixer_t) (ins' : List aout_input_t) (iE fE : Nat)
    (hm : a.p_mixer = some m) (h0 : a.output_fifo.end_date.date ≠ 0)
    (hlate : ¬ a.output_fifo.end_date.date < now)
    (h : admitLoop m.fmt (date_Get a.output_fifo.end_date)
          (date_Get (date_Increment a.output_fifo.end_date a.i_nb_samples)) 0 0 a.pp_inputs
          = (ins', iE, fE, true)) :
    MixBuffer now al a =
      ({ a with pp_inputs := ins', output_fifo := aout_FifoSet a.output_fifo 0 },
       MixResult.NotReady) := by
  rw [MixBuffer_admit_eq now al a m hm h0 hlate]
  have hlt := admitLoop_reset_lt m.fmt (date_Get a.output_fifo.end_date)
    (date_Get (date_Increment a.output_fifo.end_date a.i_nb_samples))
    a.pp_inputs 0 0 ins' iE fE h
  rw [mixAdmitAndEmit_break al m a a.output_fifo a.pp_inputs ins' a.output_fifo.end_date
    (date_Get a.output_fifo.end_date) iE fE true h (by omega)]
  rfl

/-- Claim C5 (amended): for a linear input passing admission, the ideal
offset is `(start_date - head.pts) * bytes_per_frame * rate` divided (C
truncating division) by `frame_length * 1000000`; when the cursor offset is
not strictly within `bytes_per_frame` of it, the ideal offset is truncated
TOWARD ZERO (not rounded down) to a multiple of `bytes_per_frame`; only a
negative truncated value clears the output FIFO, resets the date accumulator
to 0 and makes the tick return not-ready; otherwise `begin` becomes
`payload_start + truncated offset` (mixer.c lines 272-321). -/
theorem C5_linear_reconciliation :
    (∀ (fmt : audio_format_t) (start : Int) (p : aout_input_t) (b : aout_buffer_t),
       0 ≤ fmt.i_frame_length →
       ((cursorOffset p b - fmt.i_bytes_per_frame < idealOffset fmt start b ∧
         idealOffset fmt start b < cursorOffset p b + fmt.i_bytes_per_frame) →
          admitLinear fmt start p b =
            ({ p with begin := some (p.begin.getD b.p_buffer) }, false)) ∧
       (¬(cursorOffset p b - fmt.i_bytes_per_frame < idealOffset fmt start b ∧
          idealOffset fmt start b < cursorOffset p b + fmt.i_bytes_per_frame) →
         (roundedOffset fmt start b < 0 →
            admitLinear fmt start p b =
              ({ p with begin := some (p.begin.getD b.p_buffer) }, true)) ∧
         (¬roundedOffset fmt start b < 0 →
            admitLinear fmt start p b =
              ({ p with begin := some (b.p_buffer + roundedOffset fmt start b) }, false)))) ∧
    (∀ (now : Int) (al : Bool) (a : aout_instance_t) (m : aout_mixer_t)
       (ins' : List aout_input_t) (iE fE : Nat),
       a.p_mixer = some m →
       a.output_fifo.end_date.date ≠ 0 →
       ¬ a.output_fifo.end_date.date < now →
       admitLoop m.fmt (date_Get a.output_fifo.end_date)
         (date_Get (date_Increment a.output_fifo.end_date a.i_nb_samples)) 0 0 a.pp_inputs
         = (ins', iE, fE, true) →
       (MixBuffer now al a).2 = MixResult.NotReady ∧
       (MixBuffer now al a).1.output_fifo = aout_FifoSet a.output_fifo 0) := by
  constructor
  · intro fmt start p b hfl
    have hc := admitLinear_cases fmt start p b hfl
    have hconv : (cursorOffset p b - fmt.i_bytes_per_frame < idealOffset fmt start b ∧
        idealOffset fmt start b < cursorOffset p b + fmt.i_bytes_per_frame) ↔
        (idealOffset fmt start b + fmt.i_bytes_per_frame >
           p.begin.getD b.p_buffer - b.p_buffer ∧
         idealOffset fmt start b < fmt.i_bytes_per_frame +
           (p.begin.getD b.p_buffer - b.p_buffer)) := by
      unfold cursorOffset
      omega
    exact ⟨fun htol => hc.2 (hconv.mp htol),
           fun htol => hc.1 (fun hx => htol (hconv.mpr hx))⟩
  · intro now al a m ins' iE fE hm h0 hlate h
    rw [MixBuffer_reset_notready now al a m ins' iE fE hm h0 hlate h]
    exact ⟨rfl, rfl⟩

theorem C5_counterexample :
    idealOffset c5Fmt 100 c5buf = -3 ∧
    Int.fdiv (-3) 4 * 4 < 0 ∧
    (MixBuffer 50 true c5st).2 = MixResult.Ready c5out ∧
    (MixBuffer 50 true c5st).1.output_fifo.end_date.date = 500 ∧
    (MixBuffer 50 true c5st).1.pp_inputs.map (fun p => p.begin) = [some 500] := by
  decide

theorem C5_witness :
    (MixBuffer 50 true c5w2).2 = MixResult.NotReady ∧
    (MixBuffer 50 true c5w2).1.output_fifo = aout_FifoSet c5w2.output_fifo 0 :=
  C5_linear_reconciliation.2 50 true c5w2 { fmt := c5Fmt, b_alloc := true }
    [c5w2post] 0 0 rfl (by decide) (by decide) (by decide)

theorem discoverRel_refl (x : aout_input_t) : discoverRel x x :=
  ⟨fun _ => rfl, Or.inl rfl, rfl, rfl, rfl⟩

theorem admitRel_refl (x : aout_input_t) : admitRel x x :=
  ⟨fun _ => rfl, Or.inl rfl, rfl, rfl⟩

theorem applyPastDrop_begin (start : Int) (q : aout_input_t) :
    (applyPastDrop start q).begin = q.begin ∨ (applyPastDrop start q).begin = none := by
  unfold applyPastDrop
  dsimp only
  cases (pastDropFifo start q.fifo).2
  · exact Or.inl (by simp)
  · exact Or.inr (by simp)

theorem applyPastDrop_flags (start : Int) (q : aout_input_t) :
    (applyPastDrop start q).b_error = q.b_error ∧
    (applyPastDrop start q).b_paused = q.b_paused ∧
    (applyPastDrop start q).is_invalid = q.is_invalid := by
  unfold applyPastDrop
  exact ⟨rfl, rfl, rfl⟩

/-- The linear reconciliation leaves the queue and flags alone and moves the
cursor only to `NULL`-default or a non-negative offset from the head
payload. -/
theorem admitLinear_rel (fmt : audio_format_t) (start : Int) (q : aout_input_t)
    (b : aout_buffer_t) (hb : q.fifo.head? = some b) :
    ((admitLinear fmt start q b).1.begin = q.begin ∨
     ∃ c k, (admitLinear fmt start q b).1.fifo.head? = some c ∧ 0 ≤ k ∧
       (admitLinear fmt start q b).1.begin = some (c.p_buffer + k)) ∧
    (admitLinear fmt start q b).1.fifo = q.fifo ∧
    (admitLinear fmt start q b).1.b_error = q.b_error ∧
    (admitLinear fmt start q b).1.b_paused = q.b_paused ∧
    (admitLinear fmt start q b).1.is_invalid = q.is_invalid := by
  have hbegin0 : ∀ h : Option Int, h = q.begin →
      (some (h.getD b.p_buffer) = q.begin ∨
       ∃ k : Int, 0 ≤ k ∧ some (h.getD b.p_buffer) = some (b.p_buffer + k)) := by
    intro h hh
    cases h with
    | none => exact Or.inr ⟨0, le_refl 0, by rw [Option.getD_none, Int.add_zero]⟩
    | some v => exact Or.inl (by rw [Option.getD_some, hh])
  unfold admitLinear
  dsimp only
  split
  · split
    · refine ⟨?_, rfl, rfl, rfl, rfl⟩
      rcases hbegin0 q.begin rfl with h | ⟨k, hk, he⟩
      · exact Or.inl h
      · exact Or.inr ⟨b, k, hb, hk, he⟩
    · next hpos =>
      refine ⟨Or.inr ⟨b, _, hb, not_lt.mp hpos, rfl⟩, rfl, rfl, rfl, rfl⟩
  · refine ⟨?_, rfl, rfl, rfl, rfl⟩
    rcases hbegin0 q.begin rfl with h | ⟨k, hk, he⟩
    · exact Or.inl h
    · exact Or.inr ⟨b, k, hb, hk, he⟩

/-- One step of the admission pass satisfies `admitRel`. -/
theorem admitInput_rel (fmt : audio_format_t) (start endd : Int) (p : aout_input_t) :
    admitRel p (admitInput fmt start endd p).1 := by
  unfold admitInput
  split
  · exact ⟨fun _ => rfl, Or.inl rfl, rfl, rfl⟩
  · next hval =>
    dsimp only
    cases hf : p.fifo with
    | nil =>
      exact ⟨fun hinv => absurd hinv hval, Or.inl rfl, rfl, rfl⟩
    | cons b0 t0 =>
      dsimp only [applyPastDrop]
      cases hfd : (pastDropFifo start (b0 :: t0)).1 with
      | nil =>
        dsimp only
        refine ⟨fun hinv => absurd hinv hval, ?_, rfl, rfl⟩
        cases (pastDropFifo start (b0 :: t0)).2
        · exact Or.inl (by simp)
        · exact Or.inr (Or.inl (by simp))
      | cons b1 t1 =>
        dsimp only
        by_cases hc1 : (ensureCoverage endd (b1 :: t1)).1 = false
        · rw [if_pos hc1]
          refine ⟨fun hinv => absurd hinv hval, ?_, rfl, rfl⟩
          cases (pastDropFifo start (b0 :: t0)).2
          · exact Or.inl (by simp)
          · exact Or.inr (Or.inl (by simp))
        · rw [if_neg hc1]
          cases hq2 : (ensureCoverage endd (b1 :: t1)).2 with
          | nil =>
            dsimp only
            refine ⟨fun hinv => absurd hinv hval, ?_, rfl, rfl⟩
            cases (pastDropFifo start (b0 :: t0)).2
            · exact Or.inl (by simp)
            · exact Or.inr (Or.inl (by simp))
          | cons b2 t2 =>
            dsimp only
            by_cases hnl : fmt.non_linear = true
            · rw [if_pos hnl]
              refine ⟨fun hinv => absurd hinv hval, ?_, rfl, rfl⟩
              cases (pastDropFifo start (b0 :: t0)).2
              · exact Or.inl (by simp)
              · exact Or.inr (Or.inl (by simp))
            · rw [if_neg hnl]
              set q : aout_input_t :=
                { b_error := p.b_error, b_paused := p.b_paused, fifo := b2 :: t2,
                  begin := if (pastDropFifo start (b0 :: t0)).2 = true then none else p.begin,
                  is_invalid := false } with hq
              have hqb : q.begin = (if (pastDropFifo start (b0 :: t0)).2 = true
                  then none else p.begin) := rfl
              have hqf : q.fifo.head? = some b2 := rfl
              have hlin := admitLinear_rel fmt start q b2 hqf
              have hrel : admitRel p (admitLinear fmt start q b2).1 := by
                refine ⟨fun hinv => absurd hinv hval, ?_, ?_, ?_⟩
                · rcases hlin.1 with h | h
                  · rw [hqb] at h
                    cases hps : (pastDropFifo start (b0 :: t0)).2
                    · rw [hps] at h
                      exact Or.inl (by simpa using h)
                    · rw [hps] at h
                      exact Or.inr (Or.inl (by simpa using h))
                  · exact Or.inr (Or.inr h)
                · rw [hlin.2.2.1, hq]
                · rw [hlin.2.2.2.1, hq]
              by_cases hr2 : (admitLinear fmt start q b2).2 = true
              · rw [if_pos hr2]
                exact hrel
              · rw [if_neg hr2]
                exact hrel

/-- The discovery pass relates every input to its updated version. -/
theorem discoverLoop_rel (now : Int) :
    ∀ (l : List aout_input_t) (start : Int) (ex : date_t),
      List.Forall₂ discoverRel l (discoverLoop now start ex l).1 := by
  intro l
  induction l with
  | nil => intro start ex; exact List.Forall₂.nil
  | cons p rest ih =>
    intro start ex
    simp only [discoverLoop]
    split
    · exact List.Forall₂.cons (discoverRel_refl p) (ih start ex)
    · next hval =>
      cases hd : (dropStaleFifo now p.fifo).1 with
      | nil =>
        dsimp only
        refine List.Forall₂.cons ?_ (List.forall₂_same.mpr (fun x _ => discoverRel_refl x))
        refine ⟨fun hinv => absurd hinv hval, ?_, rfl, rfl, rfl⟩
        cases (dropStaleFifo now p.fifo).2
        · exact Or.inl (by simp)
        · exact Or.inr (by simp)
      | cons b t =>
        dsimp only
        refine List.Forall₂.cons ?_ (ih _ _)
        refine ⟨fun hinv => absurd hinv hval, ?_, rfl, rfl, rfl⟩
        cases (dropStaleFifo now p.fifo).2
        · exact Or.inl (by simp)
        · exact Or.inr (by simp)

/-- The admission pass relates every input to its updated version. -/
theorem admitLoop_rel (fmt : audio_format_t) (start endd : Int) :
    ∀ (l : List aout_input_t) (i f : Nat),
      List.Forall₂ admitRel l (admitLoop fmt start endd i f l).1 := by
  intro l
  induction l with
  | nil => intro i f; exact List.Forall₂.nil
  | cons p rest ih =>
    intro i f
    unfold admitLoop
    dsimp only
    cases hr : (admitInput fmt start endd p).2 with
    | skip =>
      dsimp only
      exact List.Forall₂.cons (admitInput_rel fmt start endd p) (ih (i + 1) _)
    | ok =>
      dsimp only
      exact List.Forall₂.cons (admitInput_rel fmt start endd p) (ih (i + 1) f)
    | halt =>
      exact List.Forall₂.cons (admitInput_rel fmt start endd p)
        (List.forall₂_same.mpr (fun x _ => admitRel_refl x))
    | haltReset =>
      exact List.Forall₂.cons (admitInput_rel fmt start endd p)
        (List.forall₂_same.mpr (fun x _ => admitRel_refl x))

/-- Any admission outcome other than `skip` means the input was valid. -/
theorem admitInput_valid_flags (fmt : audio_format_t) (start endd : Int)
    (p : aout_input_t) (h : (admitInput fmt start endd p).2 ≠ AdmitOutcome.skip) :
    (p.b_error || p.b_paused) = false := by
  by_cases hv : (p.b_error || p.b_paused) = true
  · exfalso
    apply h
    unfold admitInput
    rw [if_pos hv]
  · cases hb : (p.b_error || p.b_paused)
    · rfl
    · exact absurd hb hv

/-- Once `i_first_input` lags behind the loop index it never moves again. -/
theorem admitLoop_frozen (fmt : audio_format_t) (start endd : Int) :
    ∀ (l : List aout_input_t) (i f : Nat), f < i →
      (admitLoop fmt start endd i f l).2.2.1 = f := by
  intro l
  induction l with
  | nil => intro i f _; rfl
  | cons p rest ih =>
    intro i f hfi
    unfold admitLoop
    dsimp only
    cases hr : (admitInput fmt start endd p).2 with
    | skip =>
      dsimp only
      rw [if_neg (show ¬f = i by omega)]
      exact ih (i + 1) f (by omega)
    | ok =>
      dsimp only
      exact ih (i + 1) f (by omega)
    | halt => rfl
    | haltReset => rfl

/-- The index where the admission loop stops is at most one past the last
input. -/
theorem admitLoop_iEnd_le (fmt : audio_format_t) (start endd : Int) :
    ∀ (l : List aout_input_t) (i f : Nat),
      (admitLoop fmt start endd i f l).2.1 ≤ i + l.length := by
  intro l
  induction l with
  | nil => intro i f; simp [admitLoop]
  | cons p rest ih =>
    intro i f
    unfold admitLoop
    dsimp only
    cases hr : (admitInput fmt start endd p).2 with
    | skip =>
      dsimp only
      have := ih (i + 1) (if f = i then f + 1 else f)
      simp only [List.length_cons]
      omega
    | ok =>
      dsimp only
      have := ih (i + 1) f
      simp only [List.length_cons]
      omega
    | halt =>
      dsimp only
      simp only [List.length_cons]
      omega
    | haltReset =>
      dsimp only
      simp only [List.length_cons]
      omega

/-- When the admission loop (entered with `i_first_input = i`) runs to the
end of the inputs, the final `i_first_input` either equals the loop bound
(all inputs invalid) or indexes a valid input of the result. -/
theorem admitLoop_first_valid (fmt : audio_format_t) (start endd : Int) :
    ∀ (l : List aout_input_t) (i : Nat) (ins' : List aout_input_t)
      (iE fE : Nat) (rst : Bool),
      admitLoop fmt start endd i i l = (ins', iE, fE, rst) →
      iE = i + l.length →
      i ≤ fE ∧ (fE = iE ∨ ∃ p', ins'.get? (fE - i) = some p' ∧
        (p'.b_error || p'.b_paused) = false) := by
  intro l
  induction l with
  | nil =>
    intro i ins' iE fE rst h hcomp
    simp only [admitLoop, Prod.mk.injEq] at h
    obtain ⟨-, h2, h3, -⟩ := h
    exact ⟨by omega, Or.inl (by omega)⟩
  | cons p rest ih =>
    intro i ins' iE fE rst h hcomp
    unfold admitLoop at h
    dsimp only at h
    cases hr : (admitInput fmt start endd p).2 with
    | skip =>
      rw [hr] at h
      dsimp only at h
      rw [if_pos rfl] at h
      rcases ht : admitLoop fmt start endd (i + 1) (i + 1) rest with ⟨l2, i2, f2, rst2⟩
      rw [ht] at h
      simp only [Prod.mk.injEq] at h
      obtain ⟨h1, h2, h3, -⟩ := h
      have hcomp2 : i2 = (i + 1) + rest.length := by
        simp only [List.length_cons] at hcomp
        omega
      obtain ⟨hle, hca⟩ := ih (i + 1) l2 i2 f2 rst2 ht hcomp2
      refine ⟨by omega, ?_⟩
      rcases hca with hca | ⟨p', hp', hpv⟩
      · exact Or.inl (by omega)
      · right
        refine ⟨p', ?_, hpv⟩
        rw [← h1, show fE - i = (f2 - (i + 1)) + 1 by omega]
        exact hp'
    | ok =>
      rw [hr] at h
      dsimp only at h
      rcases ht : admitLoop fmt start endd (i + 1) i rest with ⟨l2, i2, f2, rst2⟩
      rw [ht] at h
      simp only [Prod.mk.injEq] at h
      obtain ⟨h1, h2, h3, -⟩ := h
      have hfr : f2 = i := by
        have hfz := admitLoop_frozen fmt start endd rest (i + 1) i (by omega)
        rw [ht] at hfz
        exact hfz
      refine ⟨by omega, Or.inr ?_⟩
      refine ⟨(admitInput fmt start endd p).1, ?_, ?_⟩
      · rw [← h1, show fE - i = 0 by omega]
        rfl
      · have hpv := admitInput_valid_flags fmt start endd p
          (by rw [hr]; exact fun hc => AdmitOutcome.noConfusion hc)
        have hfl := admitInput_rel fmt start endd p
        rw [hfl.2.2.1, hfl.2.2.2]
        exact hpv
    | halt =>
      rw [hr] at h
      simp only [Prod.mk.injEq] at h
      obtain ⟨-, h2, -, -⟩ := h
      exfalso
      simp only [List.length_cons] at hcomp
      omega
    | haltReset =>
      rw [hr] at h
      simp only [Prod.mk.injEq] at h
      obtain ⟨-, h2, -, -⟩ := h
      exfalso
      simp only [List.length_cons] at hcomp
      omega

/-- The admission-and-emission stage relates every input to its final
version, including the head-stamping of the first valid input in the
non-allocating mode. -/
theorem mixAdmitAndEmit_inputs_rel (al : Bool) (m : aout_mixer_t)
    (a : aout_instance_t) (fifo : aout_fifo_t) (ins : List aout_input_t)
    (ex : date_t) (st : Int) :
    List.Forall₂ admitRel ins (mixAdmitAndEmit al m a fifo ins ex st).1.pp_inputs := by
  have hrel := admitLoop_rel m.fmt st (date_Get (date_Increment ex a.i_nb_samples)) ins 0 0
  rcases hA : admitLoop m.fmt st (date_Get (date_Increment ex a.i_nb_samples)) 0 0 ins
    with ⟨ins2, iE, fE, rst⟩
  rw [hA] at hrel
  unfold mixAdmitAndEmit
  dsimp only
  rw [hA]
  dsimp only
  split
  · exact hrel
  · next hcond =>
    split
    · exact hrel
    · next ob hob =>
      dsimp only
      by_cases hal : m.b_alloc = true
      · rw [if_pos hal]
        exact hrel
      · rw [if_neg hal]
        rw [if_neg hal] at hob
        obtain ⟨pf, hpf, hhf⟩ := Option.bind_eq_some.mp hob
        rw [hpf]
        dsimp only
        cases hfifo : pf.fifo with
        | nil =>
          rw [hfifo] at hhf
          cases hhf
        | cons c tl =>
          dsimp only
          have hiEle := admitLoop_iEnd_le m.fmt st
            (date_Get (date_Increment ex a.i_nb_samples)) ins 0 0
          rw [hA] at hiEle
          dsimp only at hiEle
          have hfv := admitLoop_first_valid m.fmt st
            (date_Get (date_Increment ex a.i_nb_samples)) ins 0 ins2 iE fE rst hA
            (by omega)
          rcases hfv.2 with hfe | ⟨p', hp', hpv⟩
          · exact absurd (Or.inr (by omega)) hcond
          · rw [show fE - 0 = fE from rfl] at hp'
            have hppf : p' = pf := by
              rw [hp'] at hpf
              injection hpf
            subst hppf
            have hc_ob : c = ob := by
              rw [hfifo] at hhf
              injection hhf
            subst hc_ob
            apply forall2_set hrel fE
            intro x hx
            obtain ⟨x', hx', hRx⟩ := forall2_get_right hrel fE p' hp'
            have hxx : x = x' := by
              rw [hx] at hx'
              injection hx'
            subst hxx
            have hxval : (x.b_error || x.b_paused) = false := by
              rw [← hRx.2.2.1, ← hRx.2.2.2]
              exact hpv
            refine ⟨fun hinv => absurd hinv (by rw [hxval]; exact Bool.false_ne_true), ?_,
              hRx.2.2.1, hRx.2.2.2⟩
            rcases hRx.2.1 with h | h | ⟨b, k, hb, hk, he⟩
            · exact Or.inl h
            · exact Or.inr (Or.inl h)
            · have hbc : b = c := by
                rw [hfifo] at hb
                exact (Option.some.inj hb).symm
              subst hbc
              refine Or.inr (Or.inr ⟨{ b with i_pts := st, i_length := date_Get (date_Increment ex a.i_nb_samples) - st }, k, rfl, hk, ?_⟩)
              show p'.begin = some _
              rw [he]

/-- With a mixer bound, each input of the post-call state is related to its
pre-call version by a discovery step followed by an admission step. -/
theorem MixBuffer_inputs_rel (now : Int) (al : Bool) (a : aout_instance_t)
    (m : aout_mixer_t) (hm : a.p_mixer = some m) :
    List.Forall₂ (fun x z => ∃ y, discoverRel x y ∧ admitRel y z) a.pp_inputs
      (MixBuffer now al a).1.pp_inputs := by
  unfold MixBuffer
  rw [hm]
  dsimp only
  split
  · split
    · dsimp only
      exact forall2_comp (discoverLoop_rel now a.pp_inputs 0 _)
        (List.forall₂_same.mpr (fun x _ => admitRel_refl x))
    · exact forall2_comp (discoverLoop_rel now a.pp_inputs 0 _)
        (mixAdmitAndEmit_inputs_rel al m a _ _ _ _)
  · split
    · split
      · dsimp only
        exact forall2_comp (discoverLoop_rel now a.pp_inputs 0 _)
          (List.forall₂_same.mpr (fun x _ => admitRel_refl x))
      · exact forall2_comp (discoverLoop_rel now a.pp_inputs 0 _)
          (mixAdmitAndEmit_inputs_rel al m a _ _ _ _)
    · exact forall2_comp (List.forall₂_same.mpr (fun x _ => discoverRel_refl x))
        (mixAdmitAndEmit_inputs_rel al m a _ _ _ _)

/-- Claim C3 (amended): after any `MixBuffer` call, each input's cursor is
either exactly what it was before the call, or `NULL`, or a non-negative
byte offset from the current head buffer's payload start.  The code does
NOT keep the cursor inside `[payload_start, payload_start + byte_length]`:
the gap-driven drop never resets `begin`, and the drift-rounding branch can
place `begin` past the payload end (mixer.c lines 257-267 and 284-311). -/
theorem C3_cursor_movement (now : Int) (al : Bool) (a : aout_instance_t)
    (i : Nat) (p p' : aout_input_t)
    (hp : a.pp_inputs.get? i = some p)
    (hp' : (MixBuffer now al a).1.pp_inputs.get? i = some p') :
    p'.begin = p.begin ∨ p'.begin = none ∨
      ∃ b k, p'.fifo.head? = some b ∧ 0 ≤ k ∧ p'.begin = some (b.p_buffer + k) := by
  cases hm : a.p_mixer with
  | none =>
    have hmb : (MixBuffer now al a).1.pp_inputs = freeDetached a.pp_inputs := by
      unfold MixBuffer
      rw [hm]
    rw [hmb] at hp'
    unfold freeDetached at hp'
    rw [List.get?_map, hp] at hp'
    injection hp' with hp'
    left
    rw [← hp']
    by_cases hb : p.b_error = true
    · simp [hb]
    · simp [hb]
  | some m =>
    have hrel := MixBuffer_inputs_rel now al a m hm
    obtain ⟨z, hz, y, hxy, hyz⟩ := forall2_get_left hrel i p hp
    rw [hz] at hp'
    injection hp' with hp'
    subst hp'
    rcases hyz.2.1 with h1 | h1 | h1
    · rcases hxy.2.1 with h2 | h2
      · exact Or.inl (h1.trans h2)
      · exact Or.inr (Or.inl (h1.trans h2))
    · exact Or.inr (Or.inl h1)
    · exact Or.inr (Or.inr h1)

theorem C3_counterexample :
    (MixBuffer 400000 true c3st).2 = MixResult.NotReady ∧
    (MixBuffer 400000 true c3st).1.pp_inputs.map
        (fun p => (p.begin, p.fifo.map (fun b => (b.p_buffer, b.i_buffer_size))))
      = [(some 2001000, [(1000, 4)]), (none, [])] ∧
    ¬((1000 : Int) ≤ 2001000 ∧ (2001000 : Int) ≤ 1000 + 4) := by decide

theorem C3_witness :
    c3wpost.begin = c3wIn.begin ∨ c3wpost.begin = none ∨
      ∃ b k, c3wpost.fifo.head? = some b ∧ 0 ≤ k ∧
        c3wpost.begin = some (b.p_buffer + k) :=
  C3_cursor_movement 90000 true c1w 0 c3wIn c3wpost (by decide) (by decide)

/-- Claim C9: while a mixer is bound, an input whose error or paused flag is
set is left untouched by `MixBuffer` apart from its transient `is_invalid`
flag: its queue, cursor and flags survive both the discovery pass (which
skips it) and the admission pass (which only writes `is_invalid`)
(mixer.c lines 155-156 and 201-206). -/
theorem C9_invalid_inputs_untouched (now : Int) (al : Bool) (a : aout_instance_t)
    (m : aout_mixer_t) (i : Nat) (p p' : aout_input_t)
    (hm : a.p_mixer = some m)
    (hp : a.pp_inputs.get? i = some p)
    (hinv : (p.b_error || p.b_paused) = true)
    (hp' : (MixBuffer now al a).1.pp_inputs.get? i = some p') :
    p' = { p with is_invalid := p'.is_invalid } := by
  have hrel := MixBuffer_inputs_rel now al a m hm
  obtain ⟨z, hz, y, hxy, hyz⟩ := forall2_get_left hrel i p hp
  rw [hz] at hp'
  injection hp' with hp'
  subst hp'
  have hy : y = p := hxy.1 hinv
  subst hy
  exact hyz.1 hinv

theorem C9_witness :
    c9post = { c9in0 with is_invalid := c9post.is_invalid } ∧
    (MixBuffer 50 true c9w).2 = MixResult.Ready
      { i_pts := 100, i_length := 20, i_nb_samples := 20, p_buffer := 0,
        i_buffer_size := 80 } :=
  ⟨C9_invalid_inputs_untouched 50 true c9w { fmt := c9Fmt, b_alloc := true } 0 c9in0
      c9post rfl (by decide) (by decide) (by decide),
   by decide⟩

/-- Buffers surviving the stale drop come from the original queue. -/
theorem dropStaleFifo_mem (now : Int) :
    ∀ (q : List aout_buffer_t) (b : aout_buffer_t),
      b ∈ (dropStaleFifo now q).1 → b ∈ q := by
  intro q
  induction q with
  | nil =>
    intro b hb
    exact absurd hb (List.not_mem_nil b)
  | cons c rest ih =>
    intro b hb
    unfold dropStaleFifo at hb
    by_cases hc : c.i_pts < now
    · rw [if_pos hc] at hb
      exact List.mem_cons_of_mem c (ih b hb)
    · rw [if_neg hc] at hb
      exact hb

/-- The discovery pass, when it is not interrupted and all queued PTS are
positive, never lowers the candidate start date, leaves every valid input
with a head whose PTS is at most the final start date, and either keeps the
initial candidate or realises the final start date as some valid input's
head PTS. -/
theorem discoverLoop_start_spec (now : Int) :
    ∀ (l : List aout_input_t) (start : Int) (ex : date_t)
      (l' : List aout_input_t) (s' : Int) (ex' : date_t),
      0 ≤ start →
      (∀ p ∈ l, ∀ b ∈ p.fifo, 0 < b.i_pts) →
      discoverLoop now start ex l = (l', s', ex', false) →
      start ≤ s' ∧
      (∀ p' ∈ l', (p'.b_error || p'.b_paused) = false →
        ∃ b, p'.fifo.head? = some b ∧ b.i_pts ≤ s') ∧
      (s' = start ∨ ∃ p', p' ∈ l' ∧ (p'.b_error || p'.b_paused) = false ∧
        ∃ b, p'.fifo.head? = some b ∧ b.i_pts = s') := by
  intro l
  induction l with
  | nil =>
    intro start ex l' s' ex' hs hpos h
    simp only [discoverLoop, Prod.mk.injEq] at h
    obtain ⟨h1, h2, -, -⟩ := h
    subst h1
    refine ⟨by omega, ?_, Or.inl h2.symm⟩
    intro p' hp'
    exact absurd hp' (List.not_mem_nil p')
  | cons p rest ih =>
    intro start ex l' s' ex' hs hpos h
    unfold discoverLoop at h
    by_cases hv : (p.b_error || p.b_paused) = true
    · rw [if_pos hv] at h
      dsimp only at h
      rcases ht : discoverLoop now start ex rest with ⟨l2, s2, ex2, brk2⟩
      rw [ht] at h
      simp only [Prod.mk.injEq] at h
      obtain ⟨h1, h2, -, h4⟩ := h
      obtain ⟨ha, hb2, hc⟩ := ih start ex l2 s2 ex2 hs
        (fun q hq => hpos q (List.mem_cons_of_mem p hq)) (by rw [ht, h4])
      subst h2
      refine ⟨ha, ?_, ?_⟩
      · intro p' hp' hval
        rw [← h1] at hp'
        rcases List.mem_cons.mp hp' with rfl | hmem
        · exact absurd hv (by rw [hval]; exact Bool.false_ne_true)
        · exact hb2 p' hmem hval
      · rcases hc with hc | ⟨p', hp', hval, hbb⟩
        · exact Or.inl hc
        · exact Or.inr ⟨p', by rw [← h1]; exact List.mem_cons_of_mem p hp', hval, hbb⟩
    · have hvf : (p.b_error || p.b_paused) = false := by
        cases hbb : (p.b_error || p.b_paused)
        · rfl
        · exact absurd hbb hv
      rw [if_neg hv] at h
      dsimp only at h
      cases hd : (dropStaleFifo now p.fifo).1 with
      | nil =>
        rw [hd] at h
        dsimp only at h
        simp only [Prod.mk.injEq] at h
        cases h.2.2.2
      | cons b t =>
        rw [hd] at h
        dsimp only at h
        have hbp : 0 < b.i_pts := by
          refine hpos p (List.mem_cons_self p rest) b ?_
          refine dropStaleFifo_mem now p.fifo b ?_
          rw [hd]
          exact List.mem_cons_self b t
        by_cases hcond : start = 0 ∨ start < b.i_pts
        · rw [if_pos hcond, if_pos hcond] at h
          rcases ht : discoverLoop now b.i_pts (date_Set ex b.i_pts) rest with
            ⟨l2, s2, ex2, brk2⟩
          rw [ht] at h
          simp only [Prod.mk.injEq] at h
          obtain ⟨h1, h2, -, h4⟩ := h
          obtain ⟨ha, hb2, hc⟩ := ih b.i_pts (date_Set ex b.i_pts) l2 s2 ex2 (by omega)
            (fun q hq => hpos q (List.mem_cons_of_mem p hq)) (by rw [ht, h4])
          subst h2
          have hstart : start ≤ s2 := by
            rcases hcond with hz | hlt
            · omega
            · omega
          refine ⟨hstart, ?_, ?_⟩
          · intro p' hp' hval
            rw [← h1] at hp'
            rcases List.mem_cons.mp hp' with rfl | hmem
            · exact ⟨b, rfl, ha⟩
            · exact hb2 p' hmem hval
          · rcases hc with hc | ⟨p', hp', hval, hbb⟩
            · refine Or.inr ⟨{ b_error := p.b_error, b_paused := p.b_paused, fifo := b :: t, begin := if (dropStaleFifo now p.fifo).2 = true then none else p.begin, is_invalid := p.is_invalid }, ?_, hvf, b, rfl, hc.symm⟩
              rw [← h1]
              exact List.mem_cons_self _ l2
            · exact Or.inr ⟨p', by rw [← h1]; exact List.mem_cons_of_mem _ hp', hval, hbb⟩
        · rw [if_neg hcond, if_neg hcond] at h
          rcases ht : discoverLoop now start ex rest with ⟨l2, s2, ex2, brk2⟩
          rw [ht] at h
          simp only [Prod.mk.injEq] at h
          obtain ⟨h1, h2, -, h4⟩ := h
          obtain ⟨ha, hb2, hc⟩ := ih start ex l2 s2 ex2 hs
            (fun q hq => hpos q (List.mem_cons_of_mem p hq)) (by rw [ht, h4])
          subst h2
          have hble : b.i_pts ≤ start := by
            rcases not_or.mp hcond with ⟨-, hnl⟩
            omega
          refine ⟨ha, ?_, ?_⟩
          · intro p' hp' hval
            rw [← h1] at hp'
            rcases List.mem_cons.mp hp' with rfl | hmem
            · exact ⟨b, rfl, by omega⟩
            · exact hb2 p' hmem hval
          · rcases hc with hc | ⟨p', hp', hval, hbb⟩
            · exact Or.inl hc
            · exact Or.inr ⟨p', by rw [← h1]; exact List.mem_cons_of_mem _ hp', hval, hbb⟩

/-- An interrupted discovery (a valid input's queue emptied) on a zero
output clock makes `MixBuffer` return not-ready. -/
theorem MixBuffer_discovery_interrupted (now : Int) (al : Bool)
    (a : aout_instance_t) (m : aout_mixer_t) (hm : a.p_mixer = some m)
    (h0 : a.output_fifo.end_date.date = 0)
    (hbrk : (discoverLoop now 0 a.output_fifo.end_date a.pp_inputs).2.2.2 = true) :
    (MixBuffer now al a).2 = MixResult.NotReady := by
  unfold MixBuffer
  rw [hm]
  dsimp only
  rw [if_neg (show ¬(date_Get a.output_fifo.end_date ≠ 0 ∧
        date_Get a.output_fifo.end_date < now) from fun hc => hc.1 h0),
      if_pos (show date_Get a.output_fifo.end_date = 0 from h0),
      if_pos hbrk]

/-- Claim C7 (amended): when the output clock reads 0, the discovery pass
drops from each valid input every head buffer with `pts < now()`; if it
empties some valid input's queue, `MixBuffer` returns not-ready; otherwise
(provided queued PTS are positive) the chosen `start_date` is the maximum
head PTS over the valid inputs: every valid input is left with a head whose
PTS is AT OR BEFORE `start_date`, with equality for some valid input — an
input may well have no buffer at or after `start_date`
(mixer.c lines 146-187). -/
theorem C7_start_date_discovery :
    (∀ (now : Int) (l : List aout_input_t) (start : Int) (ex : date_t)
       (l' : List aout_input_t) (s' : Int) (ex' : date_t),
       0 ≤ start →
       (∀ p ∈ l, ∀ b ∈ p.fifo, 0 < b.i_pts) →
       discoverLoop now start ex l = (l', s', ex', false) →
       start ≤ s' ∧
       (∀ p' ∈ l', (p'.b_error || p'.b_paused) = false →
         ∃ b, p'.fifo.head? = some b ∧ b.i_pts ≤ s') ∧
       (s' = start ∨ ∃ p', p' ∈ l' ∧ (p'.b_error || p'.b_paused) = false ∧
         ∃ b, p'.fifo.head? = some b ∧ b.i_pts = s')) ∧
    (∀ (now : Int) (al : Bool) (a : aout_instance_t) (m : aout_mixer_t),
       a.p_mixer = some m →
       a.output_fifo.end_date.date = 0 →
       (discoverLoop now 0 a.output_fifo.end_date a.pp_inputs).2.2.2 = true →
       (MixBuffer now al a).2 = MixResult.NotReady) :=
  ⟨discoverLoop_start_spec, MixBuffer_discovery_interrupted⟩

theorem C7_counterexample :
    (discoverLoop 0 0 c7date [c7in0, c7in1]).2.2.2 = false ∧
    (discoverLoop 0 0 c7date [c7in0, c7in1]).2.1 = 100 ∧
    (discoverLoop 0 0 c7date [c7in0, c7in1]).1.get? 0 = some c7in0 ∧
    (c7in0.b_error || c7in0.b_paused) = false ∧
    (∀ b ∈ c7in0.fifo, b.i_pts < 100 ∧ b.i_pts + b.i_length < 100) := by decide

theorem C7_witness :
    (MixBuffer 0 true c7w2).2 = MixResult.NotReady ∧
    (∃ b, c7in1.fifo.head? = some b ∧ b.i_pts ≤ 100) := by
  constructor
  · exact C7_start_date_discovery.2 0 true c7w2 { fmt := c9Fmt, b_alloc := true }
      rfl rfl (by decide)
  · have h := C7_start_date_discovery.1 0 [c7in0, c7in1] 0 c7date
      [c7in0, c7in1] 100 (date_Set c7date 100) (by decide) (by decide) (by decide)
    exact h.2.1 c7in1 (by decide) (by decide)
